import Mathlib

/-!
# Frame pipeline of `main.c`: deinterleave, reshape, transpose

A shallow embedding of `src/main.c`.

* C arrays are seen through their base pointer (`Ptr`): cell `n` is `some v`
  when the program has put the value `v` there (or it is part of the input
  data) and `none` while the cell holds no determined value.  Every block is
  addressed on its own: a store lands in the cell it addresses, also when the
  index is past the number of cells requested from `malloc`, and it touches no
  other block.  The number of cells requested is kept beside the pointer where
  the source computes it, so that stores can be compared with it.
* A function returns `none` when it has no defined result: it read a cell that
  holds no determined value, or one of its loops does not finish.
* `int` variables are `Int` (division is `Int.tdiv`, C's truncating division);
  counters that start at 0 and only grow are `Nat`.
* `(float)` applied to an `int16_t` is exact, and the program only copies the
  resulting floats, so the two fields of `Complex` carry the converted integer.
-/

namespace MmWave

/-! ## Memory -/

/-- A C array seen through its base pointer. -/
abbrev Ptr (α : Type) := Nat → Option α

/-- The block returned by `malloc`: no cell holds a determined value yet. -/
def fresh {α : Type} : Ptr α := fun _ => none

/-- The assignment `p[n] = v`. -/
def store {α : Type} (p : Ptr α) (n : Nat) (v : α) : Ptr α :=
  fun m => if m = n then some v else p m

/-- The read `p[i]` for an `int` index. -/
def readAt {α : Type} (p : Ptr α) (i : Int) : Option α :=
  if 0 ≤ i then p i.toNat else none

/-- The array whose cells `0 .. l.length - 1` hold the elements of `l`. -/
def ofList {α : Type} (l : List α) : Ptr α := fun n => l[n]?

/-- The loop `for (x = x0; x < x0 + n; x++) body`, run from state `s`. -/
def forLoop {σ : Type} (body : Nat → σ → Option σ) : Nat → Nat → σ → Option σ
  | 0, _, s => some s
  | n + 1, x, s => (body x s).bind (forLoop body n (x + 1))

/-- A block from `malloc` filled by `for (x = 0; x < n; x++) p[x] = f x`. -/
def fill {α : Type} (n : Nat) (f : Nat → Option α) : Option (Ptr α) :=
  forLoop (fun x p => (f x).map (store p x)) n 0 fresh

/-! ## Constants (lines 6-8) -/

/-- Line 6: `#define FRAME_SIZE 12 * 128 * 256 * 4` (bytes). -/
def FRAME_SIZE : Nat := 12 * 128 * 256 * 4

/-- The value of `sizeof(int16_t)`. -/
def sizeof_int16_t : Nat := 2

/-- Line 8: `#define TOTAL_FRAME_NUMBER 799`. -/
def TOTAL_FRAME_NUMBER : Int := 799

/-- Lines 10-13: `typedef struct { float real; float imag; } Complex;`. -/
structure Complex where
  real : Int
  imag : Int
  deriving DecidableEq, Repr

/-! ## sliceArray (lines 25-37) -/

/-- What `sliceArray` hands back: the block, `*result_length`, and the final
value of the counter `j` (the number of stores the loop made). -/
structure Slice where
  sliced_arr : Ptr Int
  result_length : Int
  stored : Nat

/-- Lines 29-33: `for (int i = start; i < length; i += step)`, at most `fuel`
passes; `none` when the loop is still running after `fuel` passes. -/
def sliceLoop (arr : Ptr Int) (length step : Int) :
    Nat → Int → Nat → Ptr Int → Option (Ptr Int × Nat)
  | 0, i, j, sliced_arr => if i < length then none else some (sliced_arr, j)
  | fuel + 1, i, j, sliced_arr =>
    if i < length then
      (readAt arr i).bind fun v =>
        sliceLoop arr length step fuel (i + step) (j + 1) (store sliced_arr j v)
    else some (sliced_arr, j)

/-- Lines 25-37.  With `step >= 1` the loop makes at most `length - start`
passes, which is the fuel given to it. -/
def sliceArray (arr : Ptr Int) (length start step : Int) : Option Slice :=
  let sliced_length := (length - start + step - 1).tdiv step
  (sliceLoop arr length step (length - start).toNat start 0 fresh).map fun r =>
    { sliced_arr := r.1, result_length := sliced_length, stored := r.2 }

/-! ## complexFrame (lines 55-72) -/

/-- What `complexFrame` hands back: the block `np_frame`, the number of
`Complex` cells requested from `malloc` (line 63), and the final value of `j`
(the number of cells the loop stored to). -/
structure NpFrame where
  np_frame : Ptr Complex
  allocated : Int
  stored : Nat

/-- Lines 66-69: one pass of the loop, on the state `(j, np_frame)`. -/
def complexBody (A1 A2 A3 A4 : Ptr Int) (i : Nat) (s : Nat × Ptr Complex) :
    Option (Nat × Ptr Complex) := do
  let a1 ← readAt A1 i
  let a2 ← readAt A2 i
  let a3 ← readAt A3 i
  let a4 ← readAt A4 i
  let np_frame := store s.2 s.1 { real := a1, imag := a2 }
  let np_frame := store np_frame (s.1 + 1) { real := a3, imag := a4 }
  pure (s.1 + 2, np_frame)

/-- Lines 57-71 for a given value of `bin_frame_length` (line 56). -/
def complexFrameWith (bin_frame_length : Int) (bin_frame : Ptr Int) : Option NpFrame := do
  let A1 ← sliceArray bin_frame bin_frame_length 0 4
  let A2 ← sliceArray bin_frame bin_frame_length 2 4
  let A3 ← sliceArray bin_frame bin_frame_length 1 4
  let A4 ← sliceArray bin_frame bin_frame_length 3 4
  let s ← forLoop (complexBody A1.sliced_arr A2.sliced_arr A3.sliced_arr A4.sliced_arr)
    (bin_frame_length.tdiv 4).toNat 0 (0, fresh)
  pure { np_frame := s.2, allocated := bin_frame_length.tdiv 4, stored := s.1 }

/-- Line 56: `int bin_frame_length = FRAME_SIZE / sizeof(int16_t);`. -/
def bin_frame_length : Int := ((FRAME_SIZE / sizeof_int16_t : Nat) : Int)

/-- Lines 55-72. -/
def complexFrame (bin_frame : Ptr Int) : Option NpFrame :=
  complexFrameWith bin_frame_length bin_frame

/-! ## Tensors -/

/-- A `Complex****`: four levels of blocks, the innermost holding the cells. -/
abbrev Tensor := Ptr (Ptr (Ptr (Ptr Complex)))

/-- The array `int shape[4]` as `(shape[0], shape[1], shape[2], shape[3])`. -/
abbrev Shape := Int × Int × Int × Int

/-- The read `t[i][j][k][l]`. -/
def at4 (t : Tensor) (i j k l : Nat) : Option Complex :=
  (t i).bind fun ti => (ti j).bind fun tij => (tij k).bind fun row => row l

/-- The tensor `t` has blocks for a shape `(a, b, c, d)`: `t[i]`, `t[i][j]`,
`t[i][j][k]` and the cell `t[i][j][k][l]` are there for all `i < a`, `j < b`,
`k < c`, `l < d`. -/
def hasShape (t : Tensor) (a b c d : Nat) : Bool :=
  (List.range a).all fun i =>
    match t i with
    | none => false
    | some ti =>
      (List.range b).all fun j =>
        match ti j with
        | none => false
        | some tij =>
          (List.range c).all fun k =>
            match tij k with
            | none => false
            | some row => (List.range d).all fun l => (row l).isSome

/-! ## reshape (lines 82-110) -/

/-- Lines 82-110; the second component is what the function writes to `shape`. -/
def reshape (np_frame : Ptr Complex) (np_frame_length : Int) : Option (Tensor × Shape) := do
  let dim1 : Int := 128
  let dim2 : Int := 3
  let dim3 : Int := 4
  let dim0 : Int := np_frame_length.tdiv (dim1 * dim2 * dim3)
  let frameWithChirp ←
    fill dim1.toNat fun i =>
      fill dim2.toNat fun j =>
        fill dim3.toNat fun k =>
          fill dim0.toNat fun l =>
            let index : Int := i * dim2 * dim3 * dim0 + j * dim3 * dim0 + k * dim0 + l
            readAt np_frame index
  pure (frameWithChirp, (dim1, dim2, dim3, dim0))

/-! ## transpose (lines 119-156) -/

/-- Lines 142-144: the loop over `k`, releasing `frameWithChirp[i][j][k]`.
Each released block is named by its path in the input tensor, here `[i, j, k]`;
`freed` lists the blocks released so far, in order. -/
def releaseRows (tij : Ptr (Ptr Complex)) (i j dim3 : Nat) (freed : List (List Nat)) :
    Option (List (List Nat)) :=
  forLoop (fun k freed => do
    let _ ← tij k
    pure (freed ++ [[i, j, k]])) dim3 0 freed

/-- Lines 141-146: the loop over `j`, ending each pass with
`free(frameWithChirp[i][j])`, the block `[i, j]`. -/
def releasePlanes (ti : Ptr (Ptr (Ptr Complex))) (i dim2 dim3 : Nat) (freed : List (List Nat)) :
    Option (List (List Nat)) :=
  forLoop (fun j freed => do
    let tij ← ti j
    let freed ← releaseRows tij i j dim3 freed
    pure (freed ++ [[i, j]])) dim2 0 freed

/-- Lines 140-149: the calls of `free`, in order; `[i]` is `frameWithChirp[i]`
and `[]` is `frameWithChirp` itself. -/
def releaseAll (frameWithChirp : Tensor) (dim1 dim2 dim3 : Nat) : Option (List (List Nat)) := do
  let freed ← forLoop (fun i freed => do
    let ti ← frameWithChirp i
    let freed ← releasePlanes ti i dim2 dim3 freed
    pure (freed ++ [[i]])) dim1 0 []
  pure (freed ++ [[]])

/-- What `transpose` leaves behind: the returned tensor, the new content of
`shape`, and the blocks of the input it released. -/
structure Transposed where
  transposedFrame : Tensor
  shape : Shape
  released : List (List Nat)

/-- Lines 119-156. -/
def transpose (frameWithChirp : Tensor) (shape : Shape) : Option Transposed := do
  let dim1 : Int := shape.1
  let dim2 : Int := shape.2.1
  let dim3 : Int := shape.2.2.1
  let dim0 : Int := shape.2.2.2
  let transposedFrame ←
    fill dim2.toNat fun i =>
      fill dim3.toNat fun j =>
        fill dim1.toNat fun k =>
          fill dim0.toNat fun l => do
            let re ← at4 frameWithChirp k i j l
            let im ← at4 frameWithChirp k i j l
            pure { real := re.real, imag := im.imag }
  let released ← releaseAll frameWithChirp dim1.toNat dim2.toNat dim3.toNat
  pure { transposedFrame := transposedFrame, shape := (dim2, dim3, dim1, dim0),
         released := released }

/-! ## main (lines 158-194) -/

/-- Lines 44-47: the value `print` shows, `data[2][3][127][255].imag`. -/
def print (data : Tensor) : Option Int := (at4 data 2 3 127 255).map fun c => c.imag

/-- The call `fread(bin_frame, sizeof(int16_t), n, file)` into a block from
`malloc`, the file given as its remaining 16-bit samples: the next `n` samples,
or as many as are left, go to the block, and the file moves past them. -/
def fread (file : List Int) (n : Nat) : Ptr Int × List Int :=
  (ofList (file.take n), file.drop n)

/-- Line 176: `int np_frame_length = 128 * 3 * 4 * 256;`. -/
def np_frame_length : Int := 128 * 3 * 4 * 256

/-- What one pass of the loop of `main` produces. -/
structure FrameOut where
  transposedFrame : Tensor
  shape : Shape
  printed : Int

/-- Lines 172-183 on one raw frame: `complexFrame`, `reshape`, `transpose`,
`print`. -/
def processFrame (bin_frame : Ptr Int) : Option FrameOut := do
  let np ← complexFrame bin_frame
  let r ← reshape np.np_frame np_frame_length
  let t ← transpose r.1 r.2
  let v ← print t.transposedFrame
  pure { transposedFrame := t.transposedFrame, shape := t.shape, printed := v }

/-- What `main` did: its exit status, the result of each pass of the loop in
order (`none` for a pass without a defined result), and the samples of the file
it did not read. -/
structure Run where
  status : Int
  frames : List (Option FrameOut)
  unread : List Int

/-- Lines 170-188, one pass of the body of the loop of `main` on the samples
the file still holds: the result of the pass, the samples left in the file,
and whether the pass ends with `break` (it always does, line 188). -/
def loopBody (samples : List Int) : Option FrameOut × List Int × Bool :=
  let r := fread samples (FRAME_SIZE / sizeof_int16_t)
  let out := processFrame r.1
  (out, r.2, true)

/-- Line 169: `for (frame_no = ...; frame_no < total; frame_no++)`, left at once
when a pass ends with `break`; at most `fuel` passes.  `outs` are the results
of the passes made so far. -/
def frameLoop (total : Int) :
    Nat → Int → List Int → List (Option FrameOut) → List (Option FrameOut) × List Int
  | 0, _, samples, outs => (outs, samples)
  | fuel + 1, frame_no, samples, outs =>
    if frame_no < total then
      let b := loopBody samples
      if b.2.2 then (outs ++ [b.1], b.2.1)
      else frameLoop total fuel (frame_no + 1) b.2.1 (outs ++ [b.1])
    else (outs, samples)

/-- Lines 158-194 with `TOTAL_FRAME_NUMBER` as `total`; `file` is `none` when
`fopen` fails, else the 16-bit samples of the file.  The loop starts at
`frame_no = 0`, so `total` passes are all it can make. -/
def mainWith (total : Int) (file : Option (List Int)) : Run :=
  match file with
  | none => { status := 1, frames := [], unread := [] }
  | some samples =>
    let r := frameLoop total total.toNat 0 samples []
    { status := 0, frames := r.1, unread := r.2 }

/-- Lines 158-194. -/
def main (file : Option (List Int)) : Run := mainWith TOTAL_FRAME_NUMBER file

/-! ## Concrete inputs -/

/-- The raw frame of the literal deinterleave test. -/
def rawLiteral : Ptr Int := ofList [10, 20, 30, 40, 11, 21, 31, 41]

/-- A small tensor of shape (2, 1, 2, 1). -/
def smallTensor : Tensor :=
  ofList [ofList [ofList [ofList [⟨1, 2⟩], ofList [⟨3, 4⟩]]],
          ofList [ofList [ofList [⟨5, 6⟩], ofList [⟨7, 8⟩]]]]

/-- A complex frame of `N` samples, sample `n` being `(n, -n)`. -/
def ramp (N : Nat) : Ptr Complex :=
  fun n => if n < N then some { real := (n : Int), imag := -(n : Int) } else none

/-- The sample `n` of `ramp`. -/
def rampAt (n : Nat) : Complex := { real := (n : Int), imag := -(n : Int) }

/-- A raw frame of the configured size whose samples are all 0. -/
def zeroFrame : Ptr Int :=
  fun n => if n < FRAME_SIZE / sizeof_int16_t then some 0 else none

/-- A file that holds two full frames, all samples 0. -/
def twoFrames : List Int := List.replicate (2 * (FRAME_SIZE / sizeof_int16_t)) 0

/-- The complex sample that lines 66-69 build for index `y` of `np_frame` from
the raw samples `raw`: `(raw[4i], raw[4i+2])` at `y = 2i` and
`(raw[4i+1], raw[4i+3])` at `y = 2i+1`. -/
def sampleAt (raw : Nat → Int) (y : Nat) : Complex :=
  if y % 2 = 0 then { real := raw (4 * (y / 2)), imag := raw (4 * (y / 2) + 2) }
  else { real := raw (4 * (y / 2) + 1), imag := raw (4 * (y / 2) + 3) }

/-! ## The index of reshape (line 98) -/

/-- Line 98: `int index = i * dim2 * dim3 * dim0 + j * dim3 * dim0 + k * dim0 + l;`,
the index `reshape` reads for the cell `[i][j][k][l]`. -/
def reshapeIndex (dim2 dim3 dim0 : Int) (i j k l : Nat) : Int :=
  i * dim2 * dim3 * dim0 + j * dim3 * dim0 + k * dim0 + l

/-! ## transpose with the addresses of its blocks (lines 119-156)

The same function once more, now keeping for every block the address `malloc`
returned for it, so that the calls of `free` and the storage of the result can
be named.  `malloc` never returns an address it has returned before: the
allocator is the counter `next`, the address it hands out next. -/

/-- A block of the heap: the address `malloc` returned for it, and its cells. -/
structure Block (β : Type) where
  addr : Nat
  cells : Ptr β

/-- A `Complex****` with the address of every block on its four levels. -/
abbrev HeapTensor := Block (Block (Block (Block Complex)))

/-- The cells of `t[i][j]` without the addresses. -/
def eraseRows (b : Block (Block Complex)) : Ptr (Ptr Complex) :=
  fun k => (b.cells k).map fun row => row.cells

/-- The cells of `t[i]` without the addresses. -/
def erasePlanes (b : Block (Block (Block Complex))) : Ptr (Ptr (Ptr Complex)) :=
  fun j => (b.cells j).map eraseRows

/-- The tensor without the addresses, as `transpose` above sees it. -/
def eraseAddrs (t : HeapTensor) : Tensor :=
  fun i => (t.cells i).map erasePlanes

/-- The statements `p = malloc(...); for (x = 0; x < n; x++) p[x] = f x`, where
building `f x` may itself call `malloc`: `f x nx` is the value together with the
counter after it, when the counter was `nx` before.  The result is the block
and the counter after the loop. -/
def fillAlloc {β : Type} (n : Nat) (f : Nat → Nat → Option (β × Nat)) (next : Nat) :
    Option (Block β × Nat) :=
  (forLoop (fun x (s : Ptr β × Nat) => (f x s.2).map fun r => (store s.1 x r.1, r.2))
    n 0 (fresh, next + 1)).map fun s => ({ addr := next, cells := s.1 }, s.2)

/-- Lines 142-144 with addresses: `free(frameWithChirp[i][j][k])` for every `k`;
`freed` lists the addresses passed to `free` so far, in order. -/
def releaseRowsAddr (tij : Block (Block Complex)) (dim3 : Nat) (freed : List Nat) :
    Option (List Nat) :=
  forLoop (fun k freed => do
    let row ← tij.cells k
    pure (freed ++ [row.addr])) dim3 0 freed

/-- Lines 141-146 with addresses: the loop over `j`, each pass ending with
`free(frameWithChirp[i][j])`. -/
def releasePlanesAddr (ti : Block (Block (Block Complex))) (dim2 dim3 : Nat)
    (freed : List Nat) : Option (List Nat) :=
  forLoop (fun j freed => do
    let tij ← ti.cells j
    let freed ← releaseRowsAddr tij dim3 freed
    pure (freed ++ [tij.addr])) dim2 0 freed

/-- Lines 140-149 with addresses: every call of `free`, in order. -/
def releaseAllAddr (frameWithChirp : HeapTensor) (dim1 dim2 dim3 : Nat) :
    Option (List Nat) := do
  let freed ← forLoop (fun i freed => do
    let ti ← frameWithChirp.cells i
    let freed ← releasePlanesAddr ti dim2 dim3 freed
    pure (freed ++ [ti.addr])) dim1 0 []
  pure (freed ++ [frameWithChirp.addr])

/-- What `transpose` leaves behind, with addresses: the returned tensor, the new
content of `shape`, the addresses it passed to `free`, and the counter of the
allocator after the call. -/
structure Handoff where
  transposedFrame : HeapTensor
  shape : Shape
  released : List Nat
  next : Nat

/-- Lines 132-136 with addresses: the leaf row `transposedFrame[i][j][k]`, a
new block filled with the cells `frameWithChirp[k][i][j][l]`. -/
def allocRow (frameWithChirp : HeapTensor) (i j k dim0 : Nat) (nx : Nat) :
    Option (Block Complex × Nat) :=
  fillAlloc dim0 (fun l nx => do
    let re ← at4 (eraseAddrs frameWithChirp) k i j l
    let im ← at4 (eraseAddrs frameWithChirp) k i j l
    pure ({ real := re.real, imag := im.imag }, nx)) nx

/-- Lines 130-137 with addresses: the block `transposedFrame[i][j]` and its
`dim1` leaf rows. -/
def allocPlane (frameWithChirp : HeapTensor) (i j dim1 dim0 : Nat) (nx : Nat) :
    Option (Block (Block Complex) × Nat) :=
  fillAlloc dim1 (fun k nx => allocRow frameWithChirp i j k dim0 nx) nx

/-- Lines 128-138 with addresses: the block `transposedFrame[i]` and what hangs
below it. -/
def allocSlab (frameWithChirp : HeapTensor) (i dim3 dim1 dim0 : Nat) (nx : Nat) :
    Option (Block (Block (Block Complex)) × Nat) :=
  fillAlloc dim3 (fun j nx => allocPlane frameWithChirp i j dim1 dim0 nx) nx

/-- Lines 119-156 with addresses, the allocator counter being `next` at the
call. -/
def transposeAlloc (next : Nat) (frameWithChirp : HeapTensor) (shape : Shape) :
    Option Handoff := do
  let dim1 : Int := shape.1
  let dim2 : Int := shape.2.1
  let dim3 : Int := shape.2.2.1
  let dim0 : Int := shape.2.2.2
  let r ← fillAlloc dim2.toNat
    (fun i nx => allocSlab frameWithChirp i dim3.toNat dim1.toNat dim0.toNat nx) next
  let released ← releaseAllAddr frameWithChirp dim1.toNat dim2.toNat dim3.toNat
  pure { transposedFrame := r.1, shape := (dim2, dim3, dim1, dim0),
         released := released, next := r.2 }

/-- The addresses of the blocks of one cell, `sub` giving them for a cell that
holds a value. -/
def cellAddrs {β : Type} (sub : β → List Nat) : Option β → List Nat
  | some v => sub v
  | none => []

/-- The addresses of a block and of the blocks in its cells `0 .. n-1`, the
block itself first. -/
def blockAddrs {β : Type} (sub : β → List Nat) (n : Nat) (b : Block β) : List Nat :=
  b.addr :: (List.range n).flatMap fun x => cellAddrs sub (b.cells x)

/-- The same addresses, the block itself last. -/
def postAddrs {β : Type} (sub : β → List Nat) (n : Nat) (b : Block β) : List Nat :=
  ((List.range n).flatMap fun x => cellAddrs sub (b.cells x)) ++ [b.addr]

/-- The addresses of all blocks of a tensor whose first three dimensions are
`a`, `b`, `c`: the top-level array, each `[i]`, each `[i][j]`, and each leaf row
`[i][j][k]`. -/
def tensorAddrs (a b c : Nat) (t : HeapTensor) : List Nat :=
  blockAddrs (blockAddrs (blockAddrs (fun row => [row.addr]) c) b) a t

/-- The tensor `smallTensor` with its blocks at the addresses 100 .. 106. -/
def smallHeapTensor : HeapTensor :=
  { addr := 100, cells := ofList [
      { addr := 101, cells := ofList [
          { addr := 102, cells := ofList [
              { addr := 103, cells := ofList [⟨1, 2⟩] },
              { addr := 104, cells := ofList [⟨3, 4⟩] }] }] },
      { addr := 105, cells := ofList [
          { addr := 106, cells := ofList [
              { addr := 107, cells := ofList [⟨5, 6⟩] },
              { addr := 108, cells := ofList [⟨7, 8⟩] }] }] }] }

/-! ## Loops and blocks -/

theorem store_same {α : Type} (p : Ptr α) (n : Nat) (v : α) : store p n v n = some v := by
  simp [store]

theorem store_other {α : Type} (p : Ptr α) (n m : Nat) (v : α) (h : m ≠ n) :
    store p n v m = p m := by
  simp [store, h]

theorem readAt_nat {α : Type} (p : Ptr α) (n : Nat) : readAt p (n : Int) = p n := by
  simp [readAt]

theorem forLoop_isSome {σ : Type} (body : Nat → σ → Option σ) (n : Nat) :
    ∀ (x0 : Nat) (s : σ), (∀ x s, x0 ≤ x → x < x0 + n → (body x s).isSome = true) →
      (forLoop body n x0 s).isSome = true := by
  induction n with
  | zero => intro x0 s _; simp [forLoop]
  | succ n ih =>
    intro x0 s h
    have h0 := h x0 s (le_refl _) (by omega)
    obtain ⟨s1, hs1⟩ := Option.isSome_iff_exists.mp h0
    simp only [forLoop, hs1, Option.some_bind]
    exact ih (x0 + 1) s1 (fun x t hx hlt => h x t (by omega) (by omega))

theorem fillLoop_spec {α : Type} (f : Nat → Option α) (n : Nat) :
    ∀ (x0 : Nat) (p0 : Ptr α), (∀ x, x0 ≤ x → x < x0 + n → (f x).isSome = true) →
      forLoop (fun x p => (f x).map (store p x)) n x0 p0 =
        some (fun y => if x0 ≤ y ∧ y < x0 + n then f y else p0 y) := by
  induction n with
  | zero =>
    intro x0 p0 _
    simp only [forLoop, Option.some.injEq]
    funext y
    have : ¬ (x0 ≤ y ∧ y < x0) := by omega
    simp [this]
  | succ n ih =>
    intro x0 p0 h
    obtain ⟨v, hv⟩ := Option.isSome_iff_exists.mp (h x0 (le_refl _) (by omega))
    simp only [forLoop, hv, Option.map_some', Option.some_bind]
    rw [ih (x0 + 1) (store p0 x0 v) (fun x hx hlt => h x (by omega) (by omega))]
    simp only [Option.some.injEq]
    funext y
    by_cases hy : y = x0
    · subst hy
      have h1 : ¬ (y + 1 ≤ y ∧ y < y + 1 + n) := by omega
      have h2 : y ≤ y ∧ y < y + (n + 1) := by omega
      simp [h1, h2, store_same, hv]
    · by_cases hr : x0 + 1 ≤ y ∧ y < x0 + 1 + n
      · have h2 : x0 ≤ y ∧ y < x0 + (n + 1) := by omega
        simp [hr, h2]
      · have h2 : ¬ (x0 ≤ y ∧ y < x0 + (n + 1)) := by omega
        simp [hr, h2, store_other _ _ _ _ hy]

theorem fill_spec {α : Type} (n : Nat) (f : Nat → Option α)
    (h : ∀ x, x < n → (f x).isSome = true) :
    fill n f = some (fun y => if y < n then f y else none) := by
  unfold fill
  rw [fillLoop_spec f n 0 fresh (fun x _ hx => h x (by omega))]
  simp only [Option.some.injEq]
  funext y
  simp [fresh]

/-! ## sliceArray -/

theorem slice_count_step (L a s : Nat) (hs : 1 ≤ s) (ha : a < L) :
    (L - a + s - 1) / s = (L - (a + s) + s - 1) / s + 1 := by
  have h1 : L - a + s - 1 = (L - a - 1) + s := by omega
  rw [h1, Nat.add_div_right _ (by omega : 0 < s)]
  by_cases h : a + s ≤ L
  · have h2 : L - (a + s) + s - 1 = L - a - 1 := by omega
    rw [h2]
  · have h2 : L - (a + s) + s - 1 = s - 1 := by omega
    rw [h2, Nat.div_eq_of_lt (by omega : L - a - 1 < s), Nat.div_eq_of_lt (by omega : s - 1 < s)]

theorem sliceLoop_spec (arr : Ptr Int) (raw : Nat → Int) (L s : Nat) (hs : 1 ≤ s)
    (harr : ∀ n, n < L → arr n = some (raw n)) :
    ∀ (fuel a j : Nat) (p : Ptr Int), L - a ≤ fuel →
      sliceLoop arr (L : Int) (s : Int) fuel (a : Int) j p =
        some (fun y => if j ≤ y ∧ y < j + (L - a + s - 1) / s
                then some (raw (a + (y - j) * s)) else p y,
              j + (L - a + s - 1) / s) := by
  intro fuel
  induction fuel with
  | zero =>
    intro a j p hf
    have hlt : ¬ ((a : Int) < (L : Int)) := by omega
    have h0 : (L - a + s - 1) / s = 0 := Nat.div_eq_of_lt (by omega)
    simp only [sliceLoop, hlt, if_false, h0, Nat.add_zero, Option.some.injEq, Prod.mk.injEq,
      and_true]
    funext y
    have : ¬ (j ≤ y ∧ y < j) := by omega
    simp [this]
  | succ fuel ih =>
    intro a j p hf
    by_cases ha : a < L
    · have hlt : (a : Int) < (L : Int) := by omega
      have hcast : (a : Int) + (s : Int) = ((a + s : Nat) : Int) := by push_cast; rfl
      simp only [sliceLoop, hlt, if_true, readAt_nat, harr a ha, Option.some_bind, hcast]
      rw [ih (a + s) (j + 1) (store p j (raw a)) (by omega), slice_count_step L a s hs ha]
      generalize (L - (a + s) + s - 1) / s = c
      simp only [Option.some.injEq, Prod.mk.injEq]
      refine ⟨?_, by omega⟩
      funext y
      by_cases hy : y = j
      · subst hy
        have h1 : ¬ (y + 1 ≤ y ∧ y < y + 1 + c) := by omega
        have h2 : y ≤ y ∧ y < y + (c + 1) := by omega
        simp [h1, h2, store_same]
      · by_cases hr : j + 1 ≤ y ∧ y < j + 1 + c
        · have h2 : j ≤ y ∧ y < j + (c + 1) := by omega
          have h3 : a + s + (y - (j + 1)) * s = a + (y - j) * s := by
            have : y - j = (y - (j + 1)) + 1 := by omega
            rw [this, Nat.add_mul]; omega
          simp [hr, h2, h3]
        · have h2 : ¬ (j ≤ y ∧ y < j + (c + 1)) := by omega
          simp [hr, h2, store_other _ _ _ _ hy]
    · have hlt : ¬ ((a : Int) < (L : Int)) := by omega
      have h0 : (L - a + s - 1) / s = 0 := Nat.div_eq_of_lt (by omega)
      simp only [sliceLoop, hlt, if_false, h0, Nat.add_zero, Option.some.injEq, Prod.mk.injEq,
        and_true]
      funext y
      have : ¬ (j ≤ y ∧ y < j) := by omega
      simp [this]

theorem sliceArray_spec (arr : Ptr Int) (raw : Nat → Int) (L a s : Nat) (hs : 1 ≤ s)
    (harr : ∀ n, n < L → arr n = some (raw n)) :
    sliceArray arr (L : Int) (a : Int) (s : Int) =
      some { sliced_arr := fun y => if y < (L - a + s - 1) / s then some (raw (a + y * s))
                                    else none,
             result_length := ((L : Int) - (a : Int) + (s : Int) - 1).tdiv (s : Int),
             stored := (L - a + s - 1) / s } := by
  unfold sliceArray
  have hf : L - a ≤ ((L : Int) - (a : Int)).toNat := by omega
  rw [sliceLoop_spec arr raw L s hs harr _ a 0 fresh hf]
  simp only [Option.map_some', Option.some.injEq, Slice.mk.injEq, Nat.zero_add, and_true, true_and]
  funext y
  simp [fresh]

/-! ## complexFrame -/

theorem tdiv_natCast (m n : Nat) : (m : Int).tdiv (n : Int) = ((m / n : Nat) : Int) :=
  (Int.ofNat_tdiv m n).symm

theorem complexLoop_spec (A1 A2 A3 A4 : Ptr Int) (a1 a2 a3 a4 : Nat → Int) (n : Nat) :
    ∀ (x0 j0 : Nat) (p0 : Ptr Complex),
      (∀ x, x0 ≤ x → x < x0 + n →
        A1 x = some (a1 x) ∧ A2 x = some (a2 x) ∧ A3 x = some (a3 x) ∧ A4 x = some (a4 x)) →
      forLoop (complexBody A1 A2 A3 A4) n x0 (j0, p0) =
        some (j0 + 2 * n,
          fun y => if j0 ≤ y ∧ y < j0 + 2 * n then
              (if (y - j0) % 2 = 0
                then some { real := a1 (x0 + (y - j0) / 2), imag := a2 (x0 + (y - j0) / 2) }
                else some { real := a3 (x0 + (y - j0) / 2), imag := a4 (x0 + (y - j0) / 2) })
            else p0 y) := by
  induction n with
  | zero =>
    intro x0 j0 p0 _
    simp only [forLoop, Option.some.injEq, Prod.mk.injEq]
    refine ⟨by omega, ?_⟩
    funext y
    have : ¬ (j0 ≤ y ∧ y < j0 + 2 * 0) := by omega
    simp only [this, if_false]
  | succ n ih =>
    intro x0 j0 p0 h
    obtain ⟨h1, h2, h3, h4⟩ := h x0 (le_refl _) (by omega)
    have hb : complexBody A1 A2 A3 A4 x0 (j0, p0) =
        some (j0 + 2, store (store p0 j0 { real := a1 x0, imag := a2 x0 }) (j0 + 1)
          { real := a3 x0, imag := a4 x0 }) := by
      simp [complexBody, readAt_nat, h1, h2, h3, h4]
    simp only [forLoop, hb, Option.some_bind]
    rw [ih (x0 + 1) (j0 + 2) _ (fun x hx hlt => h x (by omega) (by omega))]
    simp only [Option.some.injEq, Prod.mk.injEq]
    refine ⟨by omega, ?_⟩
    funext y
    by_cases hy0 : y = j0
    · subst hy0
      have c1 : ¬ (y + 2 ≤ y ∧ y < y + 2 + 2 * n) := by omega
      have c2 : y ≤ y ∧ y < y + 2 * (n + 1) := by omega
      simp [c1, c2, store]
    · by_cases hy1 : y = j0 + 1
      · subst hy1
        have c1 : ¬ (j0 + 2 ≤ j0 + 1 ∧ j0 + 1 < j0 + 2 + 2 * n) := by omega
        have c2 : j0 ≤ j0 + 1 ∧ j0 + 1 < j0 + 2 * (n + 1) := by omega
        simp [c1, c2, store]
      · by_cases hr : j0 + 2 ≤ y ∧ y < j0 + 2 + 2 * n
        · have c2 : j0 ≤ y ∧ y < j0 + 2 * (n + 1) := by omega
          have e1 : (y - (j0 + 2)) % 2 = (y - j0) % 2 := by omega
          have e2 : x0 + 1 + (y - (j0 + 2)) / 2 = x0 + (y - j0) / 2 := by omega
          simp only [hr, c2, and_self, if_true, e1, e2]
        · have c2 : ¬ (j0 ≤ y ∧ y < j0 + 2 * (n + 1)) := by omega
          simp [hr, c2, store, hy0, hy1]

theorem complexFrameWith_spec (bin_frame : Ptr Int) (raw : Nat → Int) (F : Nat)
    (hraw : ∀ n, n < F → bin_frame n = some (raw n)) :
    complexFrameWith (F : Int) bin_frame =
      some { np_frame := fun y => if y < 2 * (F / 4) then
                (if y % 2 = 0
                  then some { real := raw (4 * (y / 2)), imag := raw (4 * (y / 2) + 2) }
                  else some { real := raw (4 * (y / 2) + 1), imag := raw (4 * (y / 2) + 3) })
              else none,
             allocated := ((F / 4 : Nat) : Int),
             stored := 2 * (F / 4) } := by
  have s1 := sliceArray_spec bin_frame raw F 0 4 (by omega) hraw
  have s2 := sliceArray_spec bin_frame raw F 2 4 (by omega) hraw
  have s3 := sliceArray_spec bin_frame raw F 1 4 (by omega) hraw
  have s4 := sliceArray_spec bin_frame raw F 3 4 (by omega) hraw
  simp only [Nat.cast_ofNat, Nat.cast_zero, Nat.cast_one] at s1 s2 s3 s4
  have hd : (F : Int).tdiv 4 = ((F / 4 : Nat) : Int) := tdiv_natCast F 4
  unfold complexFrameWith
  simp only [s1, s2, s3, s4, hd, Int.toNat_ofNat, Option.bind_eq_bind, Option.some_bind,
    Option.pure_def]
  rw [complexLoop_spec _ _ _ _ (fun x => raw (0 + x * 4)) (fun x => raw (2 + x * 4))
    (fun x => raw (1 + x * 4)) (fun x => raw (3 + x * 4)) (F / 4) 0 0 fresh]
  · simp only [Option.some_bind, Option.some.injEq, NpFrame.mk.injEq, Nat.zero_add, and_true,
      true_and]
    funext y
    by_cases hy : y < 2 * (F / 4)
    · have e0b : y / 2 * 4 = 4 * (y / 2) := by omega
      simp only [Nat.zero_le, true_and, hy, if_true, Nat.sub_zero, Nat.zero_add, e0b,
        Nat.add_comm 1, Nat.add_comm 2, Nat.add_comm 3]
    · simp [hy, fresh]
  · intro x _ hx
    have c1 : x < (F - 0 + 4 - 1) / 4 := by omega
    have c2 : x < (F - 2 + 4 - 1) / 4 := by omega
    have c3 : x < (F - 1 + 4 - 1) / 4 := by omega
    have c4 : x < (F - 3 + 4 - 1) / 4 := by omega
    simp only [c1, c2, c3, c4, if_true, and_self]

/-! ## Four-level blocks -/

theorem all_range_iff (n : Nat) (q : Nat → Bool) :
    (List.range n).all q = true ↔ ∀ i, i < n → q i = true := by
  simp [List.all_eq_true]

theorem hasShape_iff (t : Tensor) (a b c d : Nat) :
    hasShape t a b c d = true ↔
      ∀ i, i < a → ∃ ti, t i = some ti ∧
        ∀ j, j < b → ∃ tij, ti j = some tij ∧
          ∀ k, k < c → ∃ row, tij k = some row ∧
            ∀ l, l < d → (row l).isSome = true := by
  unfold hasShape
  rw [all_range_iff]
  constructor
  · intro h i hi
    have h1 := h i hi
    cases hti : t i with
    | none => simp [hti] at h1
    | some ti =>
      refine ⟨ti, rfl, fun j hj => ?_⟩
      simp only [hti] at h1
      rw [all_range_iff] at h1
      have h2 := h1 j hj
      cases htij : ti j with
      | none => simp [htij] at h2
      | some tij =>
        refine ⟨tij, rfl, fun k hk => ?_⟩
        simp only [htij] at h2
        rw [all_range_iff] at h2
        have h3 := h2 k hk
        cases hrow : tij k with
        | none => simp [hrow] at h3
        | some row =>
          refine ⟨row, rfl, fun l hl => ?_⟩
          simp only [hrow] at h3
          rw [all_range_iff] at h3
          exact h3 l hl
  · intro h i hi
    obtain ⟨ti, hti, h1⟩ := h i hi
    simp only [hti]
    rw [all_range_iff]
    intro j hj
    obtain ⟨tij, htij, h2⟩ := h1 j hj
    simp only [htij]
    rw [all_range_iff]
    intro k hk
    obtain ⟨row, hrow, h3⟩ := h2 k hk
    simp only [hrow]
    rw [all_range_iff]
    exact h3

theorem at4_isSome_of_hasShape (t : Tensor) (a b c d : Nat) (h : hasShape t a b c d = true)
    (i j k l : Nat) (hi : i < a) (hj : j < b) (hk : k < c) (hl : l < d) :
    (at4 t i j k l).isSome = true := by
  obtain ⟨ti, hti, h1⟩ := (hasShape_iff t a b c d).mp h i hi
  obtain ⟨tij, htij, h2⟩ := h1 j hj
  obtain ⟨row, hrow, h3⟩ := h2 k hk
  simp only [at4, hti, htij, hrow, Option.some_bind]
  exact h3 l hl

theorem fill4_spec (a b c d : Nat) (g : Nat → Nat → Nat → Nat → Option Complex)
    (hg : ∀ i j k l, i < a → j < b → k < c → l < d → (g i j k l).isSome = true) :
    ∃ t : Tensor,
      fill a (fun i => fill b (fun j => fill c (fun k => fill d (fun l => g i j k l)))) = some t ∧
      hasShape t a b c d = true ∧
      ∀ i j k l, i < a → j < b → k < c → l < d → at4 t i j k l = g i j k l := by
  have h3 : ∀ i j k, i < a → j < b → k < c →
      fill d (fun l => g i j k l) = some (fun l => if l < d then g i j k l else none) :=
    fun i j k hi hj hk => fill_spec d _ (fun l hl => hg i j k l hi hj hk hl)
  have h2 : ∀ i j, i < a → j < b →
      fill c (fun k => fill d (fun l => g i j k l)) =
        some (fun k => if k < c then fill d (fun l => g i j k l) else none) :=
    fun i j hi hj => fill_spec c _ (fun k hk => by simp only [h3 i j k hi hj hk, Option.isSome_some])
  have h1 : ∀ i, i < a →
      fill b (fun j => fill c (fun k => fill d (fun l => g i j k l))) =
        some (fun j => if j < b then fill c (fun k => fill d (fun l => g i j k l)) else none) :=
    fun i hi => fill_spec b _ (fun j hj => by simp only [h2 i j hi hj, Option.isSome_some])
  have h0 := fill_spec a
    (fun i => fill b (fun j => fill c (fun k => fill d (fun l => g i j k l))))
    (fun i hi => by simp only [h1 i hi, Option.isSome_some])
  refine ⟨_, h0, ?_, ?_⟩
  · rw [hasShape_iff]
    intro i hi
    refine ⟨_, by simp only [hi, if_true]; exact h1 i hi, fun j hj => ?_⟩
    refine ⟨_, by simp only [hj, if_true]; exact h2 i j hi hj, fun k hk => ?_⟩
    refine ⟨_, by simp only [hk, if_true]; exact h3 i j k hi hj hk, fun l hl => ?_⟩
    simp only [hl, if_true]
    exact hg i j k l hi hj hk hl
  · intro i j k l hi hj hk hl
    simp only [at4, hi, if_true, h1 i hi, Option.some_bind, hj, h2 i j hi hj, hk,
      h3 i j k hi hj hk, hl]

theorem releaseRows_isSome (tij : Ptr (Ptr Complex)) (i j c : Nat) (freed : List (List Nat))
    (h : ∀ k, k < c → (tij k).isSome = true) :
    (releaseRows tij i j c freed).isSome = true := by
  unfold releaseRows
  apply forLoop_isSome
  intro k s _ hk
  obtain ⟨row, hrow⟩ := Option.isSome_iff_exists.mp (h k (by omega))
  simp [hrow]

theorem releasePlanes_isSome (ti : Ptr (Ptr (Ptr Complex))) (i b c : Nat)
    (freed : List (List Nat))
    (h : ∀ j, j < b → ∃ tij, ti j = some tij ∧ ∀ k, k < c → (tij k).isSome = true) :
    (releasePlanes ti i b c freed).isSome = true := by
  unfold releasePlanes
  apply forLoop_isSome
  intro j s _ hj
  obtain ⟨tij, htij, h2⟩ := h j (by omega)
  obtain ⟨v, hv⟩ := Option.isSome_iff_exists.mp (releaseRows_isSome tij i j c s h2)
  simp [htij, hv]

theorem releaseAll_isSome (t : Tensor) (a b c d : Nat) (h : hasShape t a b c d = true) :
    (releaseAll t a b c).isSome = true := by
  have outer : (forLoop (fun i freed => do
      let ti ← t i
      let freed ← releasePlanes ti i b c freed
      pure (freed ++ [[i]])) a 0 []).isSome = true := by
    apply forLoop_isSome
    intro i s _ hi
    obtain ⟨ti, hti, h1⟩ := (hasShape_iff t a b c d).mp h i (by omega)
    have mid := releasePlanes_isSome ti i b c s (fun j hj => by
      obtain ⟨tij, htij, h2⟩ := h1 j hj
      exact ⟨tij, htij, fun k hk => by
        obtain ⟨row, hrow, _⟩ := h2 k hk
        simp [hrow]⟩)
    obtain ⟨v, hv⟩ := Option.isSome_iff_exists.mp mid
    simp [hti, hv]
  obtain ⟨v, hv⟩ := Option.isSome_iff_exists.mp outer
  unfold releaseAll
  simp only [Option.bind_eq_bind, Option.pure_def] at hv ⊢
  rw [hv]
  rfl

/-! ## reshape -/

theorem reshape_index_lt (d0 i j k l : Nat) (hi : i < 128) (hj : j < 3) (hk : k < 4)
    (hl : l < d0) : i * 3 * 4 * d0 + j * 4 * d0 + k * d0 + l < 1536 * d0 := by
  have h1 : i * 3 * 4 * d0 ≤ 127 * 3 * 4 * d0 :=
    Nat.mul_le_mul_right _ (Nat.mul_le_mul_right _ (Nat.mul_le_mul_right _ (by omega)))
  have h2 : j * 4 * d0 ≤ 2 * 4 * d0 :=
    Nat.mul_le_mul_right _ (Nat.mul_le_mul_right _ (by omega))
  have h3 : k * d0 ≤ 3 * d0 := Nat.mul_le_mul_right _ (by omega)
  omega

theorem reshape_spec (np_frame : Ptr Complex) (cell : Nat → Complex) (L N : Nat)
    (hN : 1536 * (L / 1536) ≤ N) (hnp : ∀ n, n < N → np_frame n = some (cell n)) :
    ∃ t : Tensor,
      reshape np_frame (L : Int) = some (t, (128, 3, 4, ((L / 1536 : Nat) : Int))) ∧
      hasShape t 128 3 4 (L / 1536) = true ∧
      ∀ i j k l, i < 128 → j < 3 → k < 4 → l < L / 1536 →
        at4 t i j k l =
          some (cell (i * 3 * 4 * (L / 1536) + j * 4 * (L / 1536) + k * (L / 1536) + l)) := by
  have hd : (L : Int).tdiv (128 * 3 * 4) = ((L / 1536 : Nat) : Int) := tdiv_natCast L 1536
  have hidx : ∀ i j k l : Nat,
      (i : Int) * 3 * 4 * ((L / 1536 : Nat) : Int) + (j : Int) * 4 * ((L / 1536 : Nat) : Int)
        + (k : Int) * ((L / 1536 : Nat) : Int) + (l : Int) =
      ((i * 3 * 4 * (L / 1536) + j * 4 * (L / 1536) + k * (L / 1536) + l : Nat) : Int) := by
    intro i j k l
    push_cast
    rfl
  have hcell : ∀ i j k l, i < 128 → j < 3 → k < 4 → l < L / 1536 →
      np_frame (i * 3 * 4 * (L / 1536) + j * 4 * (L / 1536) + k * (L / 1536) + l) =
        some (cell (i * 3 * 4 * (L / 1536) + j * 4 * (L / 1536) + k * (L / 1536) + l)) := by
    intro i j k l hi hj hk hl
    have := reshape_index_lt (L / 1536) i j k l hi hj hk hl
    exact hnp _ (by omega)
  obtain ⟨t, ht, hshape, hat⟩ := fill4_spec 128 3 4 (L / 1536)
    (fun i j k l =>
      np_frame (i * 3 * 4 * (L / 1536) + j * 4 * (L / 1536) + k * (L / 1536) + l))
    (fun i j k l hi hj hk hl => by simp only [hcell i j k l hi hj hk hl, Option.isSome_some])
  refine ⟨t, ?_, hshape, fun i j k l hi hj hk hl => ?_⟩
  · unfold reshape
    simp only [hd, hidx, readAt_nat, Int.toNat_ofNat, Option.bind_eq_bind, Option.pure_def]
    have e1 : (128 : Int).toNat = 128 := rfl
    have e2 : (3 : Int).toNat = 3 := rfl
    have e3 : (4 : Int).toNat = 4 := rfl
    rw [e1, e2, e3, ht]
    rfl
  · rw [hat i j k l hi hj hk hl, hcell i j k l hi hj hk hl]

/-! ## transpose -/

theorem copy_cell (o : Option Complex) :
    (o.bind fun re => o.bind fun im => some ({ real := re.real, imag := im.imag } : Complex)) =
      o := by
  cases o <;> rfl

theorem transpose_spec (t : Tensor) (a b c d : Int)
    (h : hasShape t a.toNat b.toNat c.toNat d.toNat = true) :
    ∃ r : Transposed,
      transpose t (a, b, c, d) = some r ∧
      r.shape = (b, c, a, d) ∧
      hasShape r.transposedFrame b.toNat c.toNat a.toNat d.toNat = true ∧
      ∀ i j k l, i < b.toNat → j < c.toNat → k < a.toNat → l < d.toNat →
        at4 r.transposedFrame i j k l = at4 t k i j l := by
  obtain ⟨out, hout, hshape, hat⟩ := fill4_spec b.toNat c.toNat a.toNat d.toNat
    (fun i j k l => at4 t k i j l)
    (fun i j k l hi hj hk hl => at4_isSome_of_hasShape t _ _ _ _ h k i j l hk hi hj hl)
  obtain ⟨fr, hfr⟩ := Option.isSome_iff_exists.mp (releaseAll_isSome t _ _ _ _ h)
  refine ⟨{ transposedFrame := out, shape := (b, c, a, d), released := fr }, ?_, rfl, hshape, hat⟩
  unfold transpose
  simp only [Option.bind_eq_bind, Option.pure_def, copy_cell, hout, hfr, Option.some_bind]

/-! ## The deinterleaver (complexFrame) -/

theorem ramp_cells (N : Nat) : ∀ n, n < N → ramp N n = some (rampAt n) := by
  intro n hn
  simp [ramp, rampAt, hn]

/-- C3: for a complex frame of `L` samples and `d0 = L / (128*3*4)`, `reshape`
returns a tensor and the shape `(128, 3, 4, d0)`, and for all `i < 128`,
`j < 3`, `k < 4`, `l < d0` the element `[i][j][k][l]` is
`frame[i*3*4*d0 + j*4*d0 + k*d0 + l]`. -/
theorem reshape_linearization (np_frame : Ptr Complex) (frame : Nat → Complex) (L : Nat)
    (hnp : ∀ n, n < L → np_frame n = some (frame n))
    (i j k l : Nat) (hi : i < 128) (hj : j < 3) (hk : k < 4) (hl : l < L / (128 * 3 * 4)) :
    ∃ t : Tensor,
      reshape np_frame (L : Int) = some (t, (128, 3, 4, ((L / (128 * 3 * 4) : Nat) : Int))) ∧
      at4 t i j k l =
        some (frame (i * 3 * 4 * (L / (128 * 3 * 4)) + j * 4 * (L / (128 * 3 * 4))
          + k * (L / (128 * 3 * 4)) + l)) := by
  obtain ⟨t, ht, _, hat⟩ := reshape_spec np_frame frame L L (Nat.mul_div_le L 1536) hnp
  exact ⟨t, ht, hat i j k l hi hj hk hl⟩

/-- C3 on a frame of `2 * 1536` samples `(n, -n)`: the element `[127][2][3][1]`
is the last sample, number 3071. -/
theorem reshape_linearization_witness :
    ∃ t : Tensor,
      reshape (ramp 3072) ((3072 : Nat) : Int) =
        some (t, (128, 3, 4, ((3072 / (128 * 3 * 4) : Nat) : Int))) ∧
      at4 t 127 2 3 1 =
        some (rampAt (127 * 3 * 4 * (3072 / (128 * 3 * 4)) + 2 * 4 * (3072 / (128 * 3 * 4))
          + 3 * (3072 / (128 * 3 * 4)) + 1)) :=
  reshape_linearization (ramp 3072) rampAt 3072 (ramp_cells 3072) 127 2 3 1
    (by decide) (by decide) (by decide) (by decide)

/-- C8, as stated, fails on a frame of 1537 samples: `reshape` returns a tensor,
of shape `(128, 3, 4, 1)`. -/
theorem shape_mismatch_counterexample :
    ¬ ((128 * 3 * 4 : Nat) ∣ 1537) ∧
      ∃ t : Tensor, reshape (ramp 1537) 1537 = some (t, (128, 3, 4, 1)) ∧
        at4 t 127 2 3 0 = some (rampAt 1535) := by
  refine ⟨by decide, ?_⟩
  obtain ⟨t, ht, _, hat⟩ := reshape_spec (ramp 1537) rampAt 1537 1537 (by decide)
    (ramp_cells 1537)
  exact ⟨t, ht, hat 127 2 3 0 (by decide) (by decide) (by decide) (by decide)⟩

/-- C8 amended: for a complex frame of `L` samples with `128*3*4` not dividing
`L`, `reshape` returns a tensor all the same: it has the shape
`(128, 3, 4, L/1536)`, holds the first `1536 * (L/1536)` samples in row-major
order, and is the tensor `reshape` returns for that shorter length. -/
theorem shape_mismatch_truncates (np_frame : Ptr Complex) (frame : Nat → Complex) (L : Nat)
    (hL : ¬ ((128 * 3 * 4 : Nat) ∣ L)) (hnp : ∀ n, n < L → np_frame n = some (frame n)) :
    ∃ t : Tensor,
      reshape np_frame (L : Int) = some (t, (128, 3, 4, ((L / 1536 : Nat) : Int))) ∧
      reshape np_frame ((1536 * (L / 1536) : Nat) : Int) =
        some (t, (128, 3, 4, ((L / 1536 : Nat) : Int))) ∧
      hasShape t 128 3 4 (L / 1536) = true ∧
      ∀ i j k l, i < 128 → j < 3 → k < 4 → l < L / 1536 →
        at4 t i j k l =
          some (frame (i * 3 * 4 * (L / 1536) + j * 4 * (L / 1536) + k * (L / 1536) + l)) := by
  have _ := hL
  obtain ⟨t, ht, hshape, hat⟩ := reshape_spec np_frame frame L L (Nat.mul_div_le L 1536) hnp
  refine ⟨t, ht, ?_, hshape, hat⟩
  have e : (1536 * (L / 1536)) / 1536 = L / 1536 := by omega
  have hd1 : (L : Int).tdiv (128 * 3 * 4) = ((L / 1536 : Nat) : Int) := tdiv_natCast L 1536
  have hd2 : ((1536 * (L / 1536) : Nat) : Int).tdiv (128 * 3 * 4) = ((L / 1536 : Nat) : Int) := by
    rw [show ((128 : Int) * 3 * 4) = ((1536 : Nat) : Int) from rfl, tdiv_natCast, e]
  have hsame : reshape np_frame ((1536 * (L / 1536) : Nat) : Int) = reshape np_frame (L : Int) := by
    unfold reshape
    simp only [hd1, hd2]
  rw [hsame, ht]

/-- C8 amended, on the frame of 1537 samples. -/
theorem shape_mismatch_truncates_witness :
    ∃ t : Tensor,
      reshape (ramp 1537) ((1537 : Nat) : Int) =
        some (t, (128, 3, 4, ((1537 / 1536 : Nat) : Int))) ∧
      reshape (ramp 1537) ((1536 * (1537 / 1536) : Nat) : Int) =
        some (t, (128, 3, 4, ((1537 / 1536 : Nat) : Int))) ∧
      hasShape t 128 3 4 (1537 / 1536) = true ∧
      ∀ i j k l, i < 128 → j < 3 → k < 4 → l < 1537 / 1536 →
        at4 t i j k l =
          some (rampAt (i * 3 * 4 * (1537 / 1536) + j * 4 * (1537 / 1536)
            + k * (1537 / 1536) + l)) :=
  shape_mismatch_truncates (ramp 1537) rampAt 1537 (by decide) (ramp_cells 1537)

/-! ## The axis permuter (transpose) -/

/-- C2: for a tensor with the blocks of the shape `(d1, d2, d3, d0)` and all
`i < d2`, `j < d3`, `k < d1`, `l < d0`, `transpose` returns a tensor whose
element `[i][j][k][l]` is the element `[k][i][j][l]` of the input, real and
imaginary part alike. -/
theorem transpose_correct (t : Tensor) (d1 d2 d3 d0 : Int)
    (h : hasShape t d1.toNat d2.toNat d3.toNat d0.toNat = true)
    (i j k l : Nat) (hi : i < d2.toNat) (hj : j < d3.toNat) (hk : k < d1.toNat)
    (hl : l < d0.toNat) :
    ∃ (r : Transposed) (v : Complex),
      transpose t (d1, d2, d3, d0) = some r ∧
      at4 t k i j l = some v ∧
      at4 r.transposedFrame i j k l = some v := by
  obtain ⟨r, hr, _, _, hat⟩ := transpose_spec t d1 d2 d3 d0 h
  obtain ⟨v, hv⟩ := Option.isSome_iff_exists.mp
    (at4_isSome_of_hasShape t _ _ _ _ h k i j l hk hi hj hl)
  exact ⟨r, v, hr, hv, by rw [hat i j k l hi hj hk hl, hv]⟩

/-- C2 on the tensor of shape (2, 1, 2, 1): the element `[0][1][1][0]` of the
result is the element `[1][0][1][0]` of the input. -/
theorem transpose_correct_witness :
    ∃ (r : Transposed) (v : Complex),
      transpose smallTensor (2, 1, 2, 1) = some r ∧
      at4 smallTensor 1 0 1 0 = some v ∧
      at4 r.transposedFrame 0 1 1 0 = some v :=
  transpose_correct smallTensor 2 1 2 1 (by decide) 0 1 1 0
    (by decide) (by decide) (by decide) (by decide)

/-- C6: for a tensor with the blocks of the shape `(a, b, c, d)`, `transpose`
leaves `(b, c, a, d)` in `shape`, and the product of the four entries is the
same before and after. -/
theorem transpose_shape (t : Tensor) (a b c d : Int)
    (h : hasShape t a.toNat b.toNat c.toNat d.toNat = true) :
    ∃ r : Transposed,
      transpose t (a, b, c, d) = some r ∧
      r.shape = (b, c, a, d) ∧
      r.shape.1 * r.shape.2.1 * r.shape.2.2.1 * r.shape.2.2.2 = a * b * c * d := by
  obtain ⟨r, hr, hs, _, _⟩ := transpose_spec t a b c d h
  refine ⟨r, hr, hs, ?_⟩
  rw [hs]
  show b * c * a * d = a * b * c * d
  ring

/-- C6 on the tensor of shape (2, 1, 2, 1). -/
theorem transpose_shape_witness :
    ∃ r : Transposed,
      transpose smallTensor (2, 1, 2, 1) = some r ∧
      r.shape = (1, 2, 2, 1) ∧
      r.shape.1 * r.shape.2.1 * r.shape.2.2.1 * r.shape.2.2.2 = 2 * 1 * 2 * 1 :=
  transpose_shape smallTensor 2 1 2 1 (by decide)

/-! ## The frame pipeline (main) -/

theorem bin_frame_length_eq : bin_frame_length = ((786432 : Nat) : Int) := rfl

theorem np_frame_length_eq : np_frame_length = ((393216 : Nat) : Int) := rfl

theorem pipeline_spec (bin_frame : Ptr Int) (raw : Nat → Int)
    (hraw : ∀ n, n < 786432 → bin_frame n = some (raw n)) :
    ∃ (np : NpFrame) (t : Tensor) (r : Transposed),
      complexFrame bin_frame = some np ∧
      np.allocated = 196608 ∧ np.stored = 393216 ∧
      reshape np.np_frame np_frame_length = some (t, (128, 3, 4, 256)) ∧
      transpose t (128, 3, 4, 256) = some r ∧
      r.shape = (3, 4, 128, 256) ∧
      hasShape r.transposedFrame 3 4 128 256 = true ∧
      ∀ i j k l, i < 3 → j < 4 → k < 128 → l < 256 →
        at4 r.transposedFrame i j k l =
          some (sampleAt raw (k * 3 * 4 * 256 + i * 4 * 256 + j * 256 + l)) := by
  have hc := complexFrameWith_spec bin_frame raw 786432 hraw
  rw [← bin_frame_length_eq] at hc
  have hnp : ∀ n, n < 393216 →
      (fun y => if y < 2 * (786432 / 4) then
          (if y % 2 = 0
            then some ({ real := raw (4 * (y / 2)), imag := raw (4 * (y / 2) + 2) } : Complex)
            else some { real := raw (4 * (y / 2) + 1), imag := raw (4 * (y / 2) + 3) })
        else none) n = some (sampleAt raw n) := by
    intro n hn
    have h1 : n < 2 * (786432 / 4) := by omega
    by_cases hp : n % 2 = 0 <;> simp [h1, hp, sampleAt]
  obtain ⟨t, ht, hshape, hat⟩ := reshape_spec _ (sampleAt raw) 393216 393216 (by decide) hnp
  rw [← np_frame_length_eq] at ht
  obtain ⟨r, hr, hs, hshape2, hat2⟩ := transpose_spec t 128 3 4 256 hshape
  refine ⟨_, t, r, hc, rfl, rfl, ht, hr, hs, hshape2, fun i j k l hi hj hk hl => ?_⟩
  rw [hat2 i j k l hi hj hk hl]
  exact hat k i j l hk hi hj hl

theorem zeroFrame_cells : ∀ n, n < 786432 → zeroFrame n = some ((fun _ => (0 : Int)) n) := by
  intro n hn
  have h : n < FRAME_SIZE / sizeof_int16_t := hn
  simp [zeroFrame, h]

theorem processFrame_spec (bin_frame : Ptr Int) (raw : Nat → Int)
    (hraw : ∀ n, n < 786432 → bin_frame n = some (raw n)) :
    ∃ out : FrameOut, processFrame bin_frame = some out ∧ out.shape = (3, 4, 128, 256) := by
  obtain ⟨np, t, r, hc, _, _, ht, hr, hs, _, hat⟩ := pipeline_spec bin_frame raw hraw
  have hp := hat 2 3 127 255 (by decide) (by decide) (by decide) (by decide)
  refine ⟨{ transposedFrame := r.transposedFrame, shape := r.shape,
            printed := (sampleAt raw (127 * 3 * 4 * 256 + 2 * 4 * 256 + 3 * 256 + 255)).imag },
    ?_, hs⟩
  unfold processFrame
  simp only [hc, ht, hr, print, hp, Option.bind_eq_bind, Option.some_bind, Option.pure_def,
    Option.map_some']

/-- C5, as stated, fails on the all-zero frame: the pipeline records the shape
`(3, 4, 128, 256)`, while `(F/4) / (128*3*4)` is 128 for the `F` of line 56. -/
theorem pipeline_shape_counterexample :
    ∃ out : FrameOut, processFrame zeroFrame = some out ∧
      out.shape = (3, 4, 128, 256) ∧
      out.shape ≠ (3, 4, 128, (bin_frame_length.tdiv 4).tdiv (128 * 3 * 4)) := by
  obtain ⟨out, hout, hshape⟩ := processFrame_spec zeroFrame _ zeroFrame_cells
  refine ⟨out, hout, hshape, ?_⟩
  rw [hshape]
  decide

/-- C5 amended: for a raw frame of the `F = FRAME_SIZE / sizeof(int16_t)`
samples, the pipeline of `main` records the shape `(3, 4, 128, d0)` with
`d0 = np_frame_length / (128*3*4) = 256`, `np_frame_length` being the constant
of line 176, which is `F/2`. -/
theorem pipeline_shape (bin_frame : Ptr Int) (raw : Nat → Int)
    (hraw : ∀ n : Nat, (n : Int) < bin_frame_length → bin_frame n = some (raw n)) :
    ∃ out : FrameOut, processFrame bin_frame = some out ∧
      out.shape = (3, 4, 128, np_frame_length.tdiv (128 * 3 * 4)) ∧
      np_frame_length.tdiv (128 * 3 * 4) = 256 ∧
      np_frame_length = bin_frame_length.tdiv 2 := by
  obtain ⟨out, hout, hs⟩ := processFrame_spec bin_frame raw
    (fun n hn => hraw n (by rw [bin_frame_length_eq]; exact_mod_cast hn))
  exact ⟨out, hout, hs, by decide, by decide⟩

/-- C5 amended, on the all-zero frame. -/
theorem pipeline_shape_witness :
    ∃ out : FrameOut, processFrame zeroFrame = some out ∧
      out.shape = (3, 4, 128, np_frame_length.tdiv (128 * 3 * 4)) ∧
      np_frame_length.tdiv (128 * 3 * 4) = 256 ∧
      np_frame_length = bin_frame_length.tdiv 2 :=
  pipeline_shape zeroFrame (fun _ => 0)
    (fun n hn => zeroFrame_cells n (by rw [bin_frame_length_eq] at hn; exact_mod_cast hn))

theorem mainWith_run (total : Int) (h : 0 < total) (samples : List Int) :
    mainWith total (some samples) =
      { status := 0,
        frames := [processFrame (fread samples (FRAME_SIZE / sizeof_int16_t)).1],
        unread := samples.drop (FRAME_SIZE / sizeof_int16_t) } := by
  obtain ⟨n, hn⟩ : ∃ n, total.toNat = n + 1 := ⟨total.toNat - 1, by omega⟩
  unfold mainWith
  simp only [hn, frameLoop, h, if_true, loopBody, fread, List.nil_append]

theorem twoFrames_length : twoFrames.length = 2 * (FRAME_SIZE / sizeof_int16_t) :=
  List.length_replicate _ _

/-- C10 at a file of two full frames with `TOTAL_FRAME_NUMBER = 799`: `main`
makes one pass of its loop, not `min 2 799 = 2`, and leaves the second frame
of the file unread. -/
theorem main_stops_after_one_frame :
    (main (some twoFrames)).frames.length = 1 ∧
      (main (some twoFrames)).unread.length = FRAME_SIZE / sizeof_int16_t ∧
      twoFrames.length = 2 * (FRAME_SIZE / sizeof_int16_t) ∧
      min 2 TOTAL_FRAME_NUMBER = 2 := by
  have h : (0 : Int) < TOTAL_FRAME_NUMBER := by decide
  have hm := mainWith_run TOTAL_FRAME_NUMBER h twoFrames
  refine ⟨?_, ?_, twoFrames_length, by decide⟩
  · unfold main
    rw [hm]
    rfl
  · unfold main
    rw [hm]
    dsimp only
    rw [List.length_drop, twoFrames_length]
    generalize FRAME_SIZE / sizeof_int16_t = x
    omega

/-! ## sliceArray as a strided slice -/

/-- C11: for a raw frame of `F` samples with 4 dividing `F` and every `start`
in 0, 1, 2, 3, `sliceArray(arr, F, start, 4)` returns and reports the length
`F/4`, which is also the number of samples its loop copied. -/
theorem slice_lengths (arr : Ptr Int) (F : Nat) (hF : 4 ∣ F)
    (harr : ∀ m, m < F → (arr m).isSome = true) (start : Nat) (hstart : start < 4) :
    ∃ sl : Slice, sliceArray arr (F : Int) (start : Int) 4 = some sl ∧
      sl.result_length = ((F / 4 : Nat) : Int) ∧
      sl.stored = F / 4 := by
  have hraw : ∀ m, m < F → arr m = some ((fun m => (arr m).getD 0) m) := by
    intro m hm
    obtain ⟨v, hv⟩ := Option.isSome_iff_exists.mp (harr m hm)
    simp [hv]
  have hs := sliceArray_spec arr _ F start 4 (by omega) hraw
  simp only [Nat.cast_ofNat] at hs
  have hcount : (F - start + 4 - 1) / 4 = F / 4 := by omega
  have hlen : ((F : Int) - (start : Int) + 4 - 1).tdiv 4 = ((F / 4 : Nat) : Int) := by
    rw [Int.tdiv_eq_ediv (by omega) (by omega)]
    omega
  exact ⟨_, hs, hlen, hcount⟩

/-- C11 on the literal frame of 8 samples, `start = 3`: length 2. -/
theorem slice_lengths_witness :
    ∃ sl : Slice, sliceArray rawLiteral ((8 : Nat) : Int) ((3 : Nat) : Int) 4 = some sl ∧
      sl.result_length = ((8 / 4 : Nat) : Int) ∧
      sl.stored = 8 / 4 :=
  slice_lengths rawLiteral 8 (by decide) (by decide) 3 (by decide)

/-! ## The block of complexFrame -/

/-- C13 at the all-zero frame of the configured size: `complexFrame` requests
196608 cells from `malloc` and its loop stores 393216, so the stores at the
indices 196608 .. 393215 are not below the number of cells requested. -/
theorem deinterleaver_overruns_block :
    ∃ np : NpFrame, complexFrame zeroFrame = some np ∧
      np.allocated = bin_frame_length.tdiv 4 ∧
      np.allocated = 196608 ∧
      np.stored = 393216 ∧
      (np.np_frame 196608).isSome = true ∧
      (np.np_frame 393215).isSome = true ∧
      ¬ (((196608 : Nat) : Int) < np.allocated) := by
  have hc := complexFrameWith_spec zeroFrame (fun _ => 0) 786432 zeroFrame_cells
  rw [← bin_frame_length_eq] at hc
  exact ⟨_, hc, by decide, by decide, by decide, by decide, by decide, by decide⟩

/-! ## The index arithmetic of reshape -/

theorem reshape_reads_index (np_frame : Ptr Complex) (L : Int) :
    reshape np_frame L =
      (fill 128 fun i => fill 3 fun j => fill 4 fun k =>
        fill (L.tdiv (128 * 3 * 4)).toNat fun l =>
          readAt np_frame (reshapeIndex 3 4 (L.tdiv (128 * 3 * 4)) i j k l)).bind
        fun t => some (t, (128, 3, 4, L.tdiv (128 * 3 * 4))) :=
  rfl

theorem reshapeIndex_nat (d i j k l : Nat) :
    reshapeIndex 3 4 ((d : Nat) : Int) i j k l = ((((i * 3 + j) * 4 + k) * d + l : Nat) : Int) := by
  unfold reshapeIndex
  push_cast
  ring

theorem radix_lt (d i j k l : Nat) (hi : i < 128) (hj : j < 3) (hk : k < 4) (hl : l < d) :
    ((i * 3 + j) * 4 + k) * d + l < 1536 * d := by
  have h1 : ((i * 3 + j) * 4 + k) * d ≤ 1535 * d := Nat.mul_le_mul_right _ (by omega)
  omega

/-- C14: for every `np_frame_length = L >= 0`, with `d0 = L / 1536`, the index
`i*3*4*d0 + j*4*d0 + k*d0 + l` that `reshape` reads for `i < 128`, `j < 3`,
`k < 4`, `l < d0` satisfies `0 <= index < L`. -/
theorem reshape_reads_in_bounds (L : Int) (hL : 0 ≤ L) (i j k l : Nat)
    (hi : i < 128) (hj : j < 3) (hk : k < 4) (hl : (l : Int) < L.tdiv (128 * 3 * 4)) :
    0 ≤ reshapeIndex 3 4 (L.tdiv (128 * 3 * 4)) i j k l ∧
      reshapeIndex 3 4 (L.tdiv (128 * 3 * 4)) i j k l < L := by
  obtain ⟨n, rfl⟩ := Int.eq_ofNat_of_zero_le hL
  have hd : (n : Int).tdiv (128 * 3 * 4) = ((n / 1536 : Nat) : Int) := tdiv_natCast n 1536
  rw [hd] at hl ⊢
  have hl2 : l < n / 1536 := by exact_mod_cast hl
  rw [reshapeIndex_nat]
  have h1 := radix_lt (n / 1536) i j k l hi hj hk hl2
  have h2 : 1536 * (n / 1536) ≤ n := Nat.mul_div_le n 1536
  constructor
  · exact Int.ofNat_nonneg _
  · exact_mod_cast (by omega : ((i * 3 + j) * 4 + k) * (n / 1536) + l < n)

/-- C14 at `L = 3072`, the largest index: it is 3071. -/
theorem reshape_reads_in_bounds_witness :
    0 ≤ reshapeIndex 3 4 ((3072 : Int).tdiv (128 * 3 * 4)) 127 2 3 1 ∧
      reshapeIndex 3 4 ((3072 : Int).tdiv (128 * 3 * 4)) 127 2 3 1 < 3072 :=
  reshape_reads_in_bounds 3072 (by decide) 127 2 3 1 (by decide) (by decide) (by decide)
    (by decide)

/-- C15: for every `L >= 0`, with `d0 = L / 1536`, the index map of `reshape`
sends the cells `i < 128`, `j < 3`, `k < 4`, `l < d0` into `[0, 1536*d0)`, and
every `n < 1536*d0` is the index of exactly one cell. -/
theorem reshape_index_bijection (L : Nat) :
    (∀ i j k l : Nat, i < 128 → j < 3 → k < 4 → l < L / 1536 →
        0 ≤ reshapeIndex 3 4 ((L / 1536 : Nat) : Int) i j k l ∧
        reshapeIndex 3 4 ((L / 1536 : Nat) : Int) i j k l < ((1536 * (L / 1536) : Nat) : Int)) ∧
      ∀ n : Nat, n < 1536 * (L / 1536) →
        ∃! p : Nat × Nat × Nat × Nat,
          p.1 < 128 ∧ p.2.1 < 3 ∧ p.2.2.1 < 4 ∧ p.2.2.2 < L / 1536 ∧
          reshapeIndex 3 4 ((L / 1536 : Nat) : Int) p.1 p.2.1 p.2.2.1 p.2.2.2 = (n : Int) := by
  generalize L / 1536 = d
  constructor
  · intro i j k l hi hj hk hl
    rw [reshapeIndex_nat]
    exact ⟨Int.ofNat_nonneg _, by exact_mod_cast radix_lt d i j k l hi hj hk hl⟩
  · intro n hn
    have hd : 0 < d := by omega
    have hm : n / d < 1536 := Nat.div_lt_of_lt_mul (by rw [Nat.mul_comm]; exact hn)
    have hsplit : n / d * d + n % d = n := by
      rw [Nat.mul_comm]; exact Nat.div_add_mod n d
    refine ⟨(n / d / 12, n / d / 4 % 3, n / d % 4, n % d), ?_, ?_⟩
    · refine ⟨?_, ?_, ?_, Nat.mod_lt _ hd, ?_⟩
      · show n / d / 12 < 128
        omega
      · show n / d / 4 % 3 < 3
        omega
      · show n / d % 4 < 4
        omega
      rw [reshapeIndex_nat]
      have e : (n / d / 12 * 3 + n / d / 4 % 3) * 4 + n / d % 4 = n / d := by omega
      simp only [e, hsplit]
    · rintro ⟨i, j, k, l⟩ ⟨hi, hj, hk, hl, hidx⟩
      simp only at hi hj hk hl hidx
      rw [reshapeIndex_nat] at hidx
      have hidx2 : ((i * 3 + j) * 4 + k) * d + l = n := by exact_mod_cast hidx
      have hq : n / d = (i * 3 + j) * 4 + k := by
        rw [← hidx2, Nat.add_comm, Nat.add_mul_div_right _ _ hd, Nat.div_eq_of_lt hl,
          Nat.zero_add]
      have hr : n % d = l := by
        rw [← hidx2, Nat.add_comm, Nat.add_mul_mod_self_right, Nat.mod_eq_of_lt hl]
      have e1 : i = n / d / 12 := by omega
      have e2 : j = n / d / 4 % 3 := by omega
      have e3 : k = n / d % 4 := by omega
      rw [e1, e2, e3, hr]

/-! ## transpose three times, and the element print reads -/

/-- C16: for a tensor with the blocks of the shape `(a, b, c, d)`, three calls
of `transpose`, each on the tensor and the shape the call before left, give
the shape `(a, b, c, d)` again and, at every index `i < a`, `j < b`, `k < c`,
`l < d`, the element the first tensor has there. -/
theorem transpose_order_three (t : Tensor) (a b c d : Int)
    (h : hasShape t a.toNat b.toNat c.toNat d.toNat = true) :
    ∃ r1 r2 r3 : Transposed,
      transpose t (a, b, c, d) = some r1 ∧
      transpose r1.transposedFrame r1.shape = some r2 ∧
      transpose r2.transposedFrame r2.shape = some r3 ∧
      r3.shape = (a, b, c, d) ∧
      ∀ i j k l, i < a.toNat → j < b.toNat → k < c.toNat → l < d.toNat →
        ∃ v : Complex, at4 t i j k l = some v ∧ at4 r3.transposedFrame i j k l = some v := by
  obtain ⟨r1, h1, s1, sh1, at1⟩ := transpose_spec t a b c d h
  obtain ⟨r2, h2, s2, sh2, at2⟩ := transpose_spec r1.transposedFrame b c a d sh1
  obtain ⟨r3, h3, s3, _, at3⟩ := transpose_spec r2.transposedFrame c a b d sh2
  refine ⟨r1, r2, r3, h1, by rw [s1]; exact h2, by rw [s2]; exact h3, s3,
    fun i j k l hi hj hk hl => ?_⟩
  obtain ⟨v, hv⟩ := Option.isSome_iff_exists.mp
    (at4_isSome_of_hasShape t _ _ _ _ h i j k l hi hj hk hl)
  refine ⟨v, hv, ?_⟩
  rw [at3 i j k l hi hj hk hl, at2 k i j l hk hi hj hl, at1 j k i l hj hk hi hl, hv]

/-- C16 on the tensor of shape (2, 1, 2, 1). -/
theorem transpose_order_three_witness :
    ∃ r1 r2 r3 : Transposed,
      transpose smallTensor (2, 1, 2, 1) = some r1 ∧
      transpose r1.transposedFrame r1.shape = some r2 ∧
      transpose r2.transposedFrame r2.shape = some r3 ∧
      r3.shape = (2, 1, 2, 1) ∧
      ∀ i j k l, i < (2 : Int).toNat → j < (1 : Int).toNat → k < (2 : Int).toNat →
        l < (1 : Int).toNat →
        ∃ v : Complex, at4 smallTensor i j k l = some v ∧
          at4 r3.transposedFrame i j k l = some v :=
  transpose_order_three smallTensor 2 1 2 1 (by decide)

/-- C17: for a complex frame that holds the `np_frame_length` samples of line
176, `reshape` and then `transpose` record a shape with `2 < shape[0]`,
`3 < shape[1]`, `127 < shape[2]`, `255 < shape[3]`, and the element
`[2][3][127][255]` that `print` reads is there. -/
theorem print_index_in_bounds (np_frame : Ptr Complex)
    (hnp : ∀ n : Nat, (n : Int) < np_frame_length → (np_frame n).isSome = true) :
    ∃ (fr : Tensor × Shape) (r : Transposed),
      reshape np_frame np_frame_length = some fr ∧
      transpose fr.1 fr.2 = some r ∧
      2 < r.shape.1 ∧ 3 < r.shape.2.1 ∧ 127 < r.shape.2.2.1 ∧ 255 < r.shape.2.2.2 ∧
      (at4 r.transposedFrame 2 3 127 255).isSome = true ∧
      (print r.transposedFrame).isSome = true := by
  have hcell : ∀ n, n < 393216 →
      np_frame n = some ((fun n => (np_frame n).getD { real := 0, imag := 0 }) n) := by
    intro n hn
    obtain ⟨v, hv⟩ := Option.isSome_iff_exists.mp
      (hnp n (by rw [np_frame_length_eq]; exact_mod_cast hn))
    simp [hv]
  obtain ⟨t, ht, hshape, _⟩ := reshape_spec np_frame _ 393216 393216 (by decide) hcell
  rw [← np_frame_length_eq] at ht
  obtain ⟨r, hr, hs, hshape2, _⟩ := transpose_spec t 128 3 4 256 hshape
  have hsome := at4_isSome_of_hasShape r.transposedFrame _ _ _ _ hshape2 2 3 127 255
    (by decide) (by decide) (by decide) (by decide)
  refine ⟨(t, (128, 3, 4, 256)), r, ht, hr, ?_, ?_, ?_, ?_, hsome, ?_⟩
  · rw [hs]; decide
  · rw [hs]; decide
  · rw [hs]; decide
  · rw [hs]; decide
  · obtain ⟨v, hv⟩ := Option.isSome_iff_exists.mp hsome
    simp [print, hv]

/-- C17 on the frame of 393216 samples `(n, -n)`. -/
theorem print_index_in_bounds_witness :
    ∃ (fr : Tensor × Shape) (r : Transposed),
      reshape (ramp 393216) np_frame_length = some fr ∧
      transpose fr.1 fr.2 = some r ∧
      2 < r.shape.1 ∧ 3 < r.shape.2.1 ∧ 127 < r.shape.2.2.1 ∧ 255 < r.shape.2.2.2 ∧
      (at4 r.transposedFrame 2 3 127 255).isSome = true ∧
      (print r.transposedFrame).isSome = true :=
  print_index_in_bounds (ramp 393216) (fun n hn => by
    rw [ramp_cells 393216 n (by rw [np_frame_length_eq] at hn; exact_mod_cast hn)]
    rfl)

/-! ## The calls of free -/

theorem forLoop_append {α : Type} (body : Nat → List α → Option (List α)) (g : Nat → List α)
    (n : Nat) :
    ∀ (x0 : Nat) (acc : List α),
      (∀ x acc, x0 ≤ x → x < x0 + n → body x acc = some (acc ++ g x)) →
      forLoop body n x0 acc = some (acc ++ (List.range' x0 n).flatMap g) := by
  induction n with
  | zero => intro x0 acc _; simp [forLoop]
  | succ n ih =>
    intro x0 acc h
    simp only [forLoop, h x0 acc (le_refl _) (by omega), Option.some_bind]
    rw [ih (x0 + 1) (acc ++ g x0) (fun x acc hx hlt => h x acc (by omega) (by omega))]
    simp [List.range'_succ, List.append_assoc]

theorem releaseRowsAddr_spec (tij : Block (Block Complex)) (c : Nat) (freed : List Nat)
    (h : ∀ k, k < c → (tij.cells k).isSome = true) :
    releaseRowsAddr tij c freed =
      some (freed ++ (List.range c).flatMap fun k =>
        cellAddrs (fun row => [row.addr]) (tij.cells k)) := by
  unfold releaseRowsAddr
  rw [List.range_eq_range']
  apply forLoop_append
  intro k acc _ hk
  obtain ⟨row, hrow⟩ := Option.isSome_iff_exists.mp (h k (by omega))
  simp [hrow, cellAddrs]

theorem releasePlanesAddr_spec (ti : Block (Block (Block Complex))) (b c : Nat)
    (freed : List Nat)
    (h : ∀ j, j < b → ∃ tij, ti.cells j = some tij ∧ ∀ k, k < c → (tij.cells k).isSome = true) :
    releasePlanesAddr ti b c freed =
      some (freed ++ (List.range b).flatMap fun j =>
        cellAddrs (postAddrs (fun row => [row.addr]) c) (ti.cells j)) := by
  unfold releasePlanesAddr
  rw [List.range_eq_range']
  apply forLoop_append
  intro j acc _ hj
  obtain ⟨tij, htij, h2⟩ := h j (by omega)
  simp [htij, releaseRowsAddr_spec tij c acc h2, cellAddrs, postAddrs, List.append_assoc]

theorem releaseAllAddr_spec (t : HeapTensor) (a b c : Nat)
    (h : ∀ i, i < a → ∃ ti, t.cells i = some ti ∧
      ∀ j, j < b → ∃ tij, ti.cells j = some tij ∧ ∀ k, k < c → (tij.cells k).isSome = true) :
    releaseAllAddr t a b c =
      some (postAddrs (postAddrs (postAddrs (fun row => [row.addr]) c) b) a t) := by
  have hloop : forLoop (fun i freed => do
      let ti ← t.cells i
      let freed ← releasePlanesAddr ti b c freed
      pure (freed ++ [ti.addr])) a 0 [] =
      some ([] ++ (List.range' 0 a).flatMap fun i =>
        cellAddrs (postAddrs (postAddrs (fun row => [row.addr]) c) b) (t.cells i)) := by
    apply forLoop_append
    intro i acc _ hi
    obtain ⟨ti, hti, h2⟩ := h i (by omega)
    simp [hti, releasePlanesAddr_spec ti b c acc h2, cellAddrs, postAddrs, List.append_assoc]
  unfold releaseAllAddr
  simp only [Option.bind_eq_bind, Option.pure_def] at hloop ⊢
  rw [hloop]
  simp [postAddrs, List.range_eq_range']

theorem cellAddrs_perm {β : Type} (sub sub2 : β → List Nat)
    (h : ∀ v, (sub v).Perm (sub2 v)) (o : Option β) :
    (cellAddrs sub o).Perm (cellAddrs sub2 o) := by
  cases o with
  | none => exact List.Perm.refl _
  | some v => exact h v

theorem postAddrs_perm {β : Type} (sub sub2 : β → List Nat)
    (h : ∀ v, (sub v).Perm (sub2 v)) (n : Nat) (b : Block β) :
    (postAddrs sub n b).Perm (blockAddrs sub2 n b) := by
  unfold postAddrs blockAddrs
  refine (List.perm_append_singleton _ _).trans (List.Perm.cons _ ?_)
  exact List.Perm.flatMap_left _ (fun x _ => cellAddrs_perm sub sub2 h _)

theorem released_perm (t : HeapTensor) (a b c : Nat) :
    (postAddrs (postAddrs (postAddrs (fun row => [row.addr]) c) b) a t).Perm
      (tensorAddrs a b c t) := by
  unfold tensorAddrs
  apply postAddrs_perm
  intro ti
  apply postAddrs_perm
  intro tij
  apply postAddrs_perm
  intro row
  exact List.Perm.refl _

/-! ## The blocks transpose allocates -/

theorem forLoop_invariant {σ : Type} (body : Nat → σ → Option σ) (Inv : Nat → σ → Prop)
    (n : Nat) :
    ∀ (x0 : Nat) (s sf : σ), Inv x0 s →
      (∀ x s s2, x0 ≤ x → x < x0 + n → Inv x s → body x s = some s2 → Inv (x + 1) s2) →
      forLoop body n x0 s = some sf → Inv (x0 + n) sf := by
  induction n with
  | zero =>
    intro x0 s sf h0 _ hrun
    simp only [forLoop, Option.some.injEq] at hrun
    subst hrun
    exact h0
  | succ n ih =>
    intro x0 s sf h0 hstep hrun
    simp only [forLoop] at hrun
    obtain ⟨s1, hs1, hrest⟩ := Option.bind_eq_some.mp hrun
    have h1 := hstep x0 s s1 (le_refl _) (by omega) h0 hs1
    have := ih (x0 + 1) s1 sf h1
      (fun x t t2 hx hlt => hstep x t t2 (by omega) (by omega)) hrest
    rw [show x0 + (n + 1) = x0 + 1 + n by omega]
    exact this

theorem fillAlloc_spec {β : Type} (n : Nat) (f : Nat → Nat → Option (β × Nat))
    (hmono : ∀ x nx v nx2, f x nx = some (v, nx2) → nx ≤ nx2)
    (next : Nat) (blk : Block β) (nx1 : Nat) (hrun : fillAlloc n f next = some (blk, nx1)) :
    blk.addr = next ∧ next < nx1 ∧
      ∀ x, x < n → ∃ nx v nx2, next < nx ∧ nx2 ≤ nx1 ∧ f x nx = some (v, nx2) ∧
        blk.cells x = some v := by
  unfold fillAlloc at hrun
  obtain ⟨sf, hloop, hsf⟩ := Option.map_eq_some'.mp hrun
  simp only [Prod.mk.injEq] at hsf
  obtain ⟨hblk, hnx⟩ := hsf
  have hinv := forLoop_invariant
    (fun x (s : Ptr β × Nat) => (f x s.2).map fun r => (store s.1 x r.1, r.2))
    (fun k (s : Ptr β × Nat) => next < s.2 ∧
      ∀ x, x < k → ∃ nx v nx2, next < nx ∧ nx2 ≤ s.2 ∧ f x nx = some (v, nx2) ∧
        s.1 x = some v)
    n 0 (fresh, next + 1) sf
    ⟨by simp, fun x hx => absurd hx (by omega)⟩
    (by
      intro k s s2 _ _ hI hb
      obtain ⟨hlt, hprev⟩ := hI
      obtain ⟨r, hr, hs2⟩ := Option.map_eq_some'.mp hb
      subst hs2
      have hm := hmono k s.2 r.1 r.2 hr
      refine ⟨by simp only; omega, fun x hx => ?_⟩
      by_cases hxk : x = k
      · subst hxk
        exact ⟨s.2, r.1, r.2, hlt, le_refl _, hr, store_same _ _ _⟩
      · obtain ⟨nx, v, nx2, h1, h2, h3, h4⟩ := hprev x (by omega)
        exact ⟨nx, v, nx2, h1, by simp only; omega, h3, by
          simp only [store_other _ _ _ _ hxk, h4]⟩)
    hloop
  simp only [Nat.zero_add] at hinv
  subst hblk
  subst hnx
  exact ⟨rfl, hinv.1, hinv.2⟩

theorem fillAlloc_isSome {β : Type} (n : Nat) (f : Nat → Nat → Option (β × Nat))
    (h : ∀ x nx, x < n → (f x nx).isSome = true) (next : Nat) :
    (fillAlloc n f next).isSome = true := by
  unfold fillAlloc
  have hloop := forLoop_isSome
    (fun x (s : Ptr β × Nat) => (f x s.2).map fun r => (store s.1 x r.1, r.2))
    n 0 (fresh, next + 1)
    (fun x s _ hx => by
      obtain ⟨r, hr⟩ := Option.isSome_iff_exists.mp (h x s.2 (by omega))
      simp [hr])
  obtain ⟨sf, hsf⟩ := Option.isSome_iff_exists.mp hloop
  simp [hsf]

theorem blockAddrs_fresh {β : Type} (sub : β → List Nat) (n : Nat)
    (f : Nat → Nat → Option (β × Nat))
    (hmono : ∀ x nx v nx2, f x nx = some (v, nx2) → nx ≤ nx2)
    (hsub : ∀ x nx v nx2, f x nx = some (v, nx2) → ∀ y ∈ sub v, nx ≤ y ∧ y < nx2)
    (next : Nat) (blk : Block β) (nx1 : Nat) (hrun : fillAlloc n f next = some (blk, nx1)) :
    ∀ y ∈ blockAddrs sub n blk, next ≤ y ∧ y < nx1 := by
  obtain ⟨haddr, hlt, hcells⟩ := fillAlloc_spec n f hmono next blk nx1 hrun
  intro y hy
  unfold blockAddrs at hy
  rcases List.mem_cons.mp hy with h0 | hrest
  · omega
  · obtain ⟨x, hx, hyx⟩ := List.mem_flatMap.mp hrest
    obtain ⟨nx, v, nx2, h1, h2, h3, h4⟩ := hcells x (List.mem_range.mp hx)
    rw [h4] at hyx
    have := hsub x nx v nx2 h3 y hyx
    omega

theorem hasShape_erase (t : HeapTensor) (a b c d : Nat)
    (h : hasShape (eraseAddrs t) a b c d = true) :
    ∀ i, i < a → ∃ ti, t.cells i = some ti ∧
      ∀ j, j < b → ∃ tij, ti.cells j = some tij ∧
        ∀ k, k < c → (tij.cells k).isSome = true := by
  intro i hi
  obtain ⟨ti2, hti2, h1⟩ := (hasShape_iff _ a b c d).mp h i hi
  obtain ⟨ti, hti, rfl⟩ := Option.map_eq_some'.mp hti2
  refine ⟨ti, hti, fun j hj => ?_⟩
  obtain ⟨tij2, htij2, h2⟩ := h1 j hj
  obtain ⟨tij, htij, rfl⟩ := Option.map_eq_some'.mp htij2
  refine ⟨tij, htij, fun k hk => ?_⟩
  obtain ⟨row2, hrow2, _⟩ := h2 k hk
  obtain ⟨row, hrow, _⟩ := Option.map_eq_some'.mp hrow2
  simp [hrow]

theorem copy_cell_at (o : Option Complex) (nx : Nat) (v : Complex) (nx2 : Nat)
    (h : (o.bind fun re => o.bind fun im =>
      some (({ real := re.real, imag := im.imag } : Complex), nx)) = some (v, nx2)) :
    o = some v ∧ nx2 = nx := by
  cases o with
  | none => simp at h
  | some c =>
    simp only [Option.some_bind, Option.some.injEq, Prod.mk.injEq] at h
    exact ⟨by rw [← h.1], h.2.symm⟩

theorem allocRow_spec (t : HeapTensor) (i j k d0 nx : Nat) (row : Block Complex) (nx2 : Nat)
    (h : allocRow t i j k d0 nx = some (row, nx2)) :
    row.addr = nx ∧ nx < nx2 ∧
      ∀ l, l < d0 → row.cells l = at4 (eraseAddrs t) k i j l := by
  unfold allocRow at h
  simp only [Option.bind_eq_bind, Option.pure_def] at h
  obtain ⟨h1, h2, h3⟩ := fillAlloc_spec d0 _
    (fun x n v n2 hf => by rw [(copy_cell_at _ n v n2 hf).2]) nx row nx2 h
  refine ⟨h1, h2, fun l hl => ?_⟩
  obtain ⟨n, v, n2, _, _, hf, hc⟩ := h3 l hl
  rw [hc, (copy_cell_at _ n v n2 hf).1]

theorem allocRow_isSome (t : HeapTensor) (i j k d0 : Nat)
    (h : ∀ l, l < d0 → (at4 (eraseAddrs t) k i j l).isSome = true) (nx : Nat) :
    (allocRow t i j k d0 nx).isSome = true := by
  unfold allocRow
  apply fillAlloc_isSome
  intro l n hl
  obtain ⟨v, hv⟩ := Option.isSome_iff_exists.mp (h l hl)
  simp [hv]

theorem allocPlane_spec (t : HeapTensor) (i j a d0 nx : Nat) (pl : Block (Block Complex))
    (nx2 : Nat) (h : allocPlane t i j a d0 nx = some (pl, nx2)) :
    pl.addr = nx ∧ nx < nx2 ∧
      (∀ y ∈ blockAddrs (fun row : Block Complex => [row.addr]) a pl, nx ≤ y ∧ y < nx2) ∧
      ∀ k l, k < a → l < d0 →
        (eraseRows pl k).bind (fun r => r l) = at4 (eraseAddrs t) k i j l := by
  unfold allocPlane at h
  have hmono : ∀ x n (v : Block Complex) n2,
      (fun k n => allocRow t i j k d0 n) x n = some (v, n2) → n ≤ n2 :=
    fun x n v n2 hf => Nat.le_of_lt (allocRow_spec t i j x d0 n v n2 hf).2.1
  obtain ⟨h1, h2, h3⟩ := fillAlloc_spec a _ hmono nx pl nx2 h
  refine ⟨h1, h2, ?_, fun k l hk hl => ?_⟩
  · refine blockAddrs_fresh _ a _ hmono (fun x n v n2 hf y hy => ?_) nx pl nx2 h
    obtain ⟨e1, e2, _⟩ := allocRow_spec t i j x d0 n v n2 hf
    have : y = v.addr := by simpa using hy
    omega
  · obtain ⟨n, v, n2, _, _, hf, hc⟩ := h3 k hk
    simp only [eraseRows, hc, Option.map_some', Option.some_bind]
    exact (allocRow_spec t i j k d0 n v n2 hf).2.2 l hl

theorem allocPlane_isSome (t : HeapTensor) (i j a d0 : Nat)
    (h : ∀ k l, k < a → l < d0 → (at4 (eraseAddrs t) k i j l).isSome = true) (nx : Nat) :
    (allocPlane t i j a d0 nx).isSome = true := by
  unfold allocPlane
  apply fillAlloc_isSome
  intro k n hk
  exact allocRow_isSome t i j k d0 (fun l hl => h k l hk hl) n

theorem allocSlab_spec (t : HeapTensor) (i c a d0 nx : Nat)
    (sl : Block (Block (Block Complex))) (nx2 : Nat)
    (h : allocSlab t i c a d0 nx = some (sl, nx2)) :
    sl.addr = nx ∧ nx < nx2 ∧
      (∀ y ∈ blockAddrs (blockAddrs (fun row : Block Complex => [row.addr]) a) c sl,
        nx ≤ y ∧ y < nx2) ∧
      ∀ j k l, j < c → k < a → l < d0 →
        (erasePlanes sl j).bind (fun p => (p k).bind fun r => r l) =
          at4 (eraseAddrs t) k i j l := by
  unfold allocSlab at h
  have hmono : ∀ x n (v : Block (Block Complex)) n2,
      (fun j n => allocPlane t i j a d0 n) x n = some (v, n2) → n ≤ n2 :=
    fun x n v n2 hf => Nat.le_of_lt (allocPlane_spec t i x a d0 n v n2 hf).2.1
  obtain ⟨h1, h2, h3⟩ := fillAlloc_spec c _ hmono nx sl nx2 h
  refine ⟨h1, h2, ?_, fun j k l hj hk hl => ?_⟩
  · exact blockAddrs_fresh _ c _ hmono
      (fun x n v n2 hf => (allocPlane_spec t i x a d0 n v n2 hf).2.2.1) nx sl nx2 h
  · obtain ⟨n, v, n2, _, _, hf, hc⟩ := h3 j hj
    simp only [erasePlanes, hc, Option.map_some', Option.some_bind]
    exact (allocPlane_spec t i j a d0 n v n2 hf).2.2.2 k l hk hl

theorem allocSlab_isSome (t : HeapTensor) (i c a d0 : Nat)
    (h : ∀ j k l, j < c → k < a → l < d0 → (at4 (eraseAddrs t) k i j l).isSome = true)
    (nx : Nat) : (allocSlab t i c a d0 nx).isSome = true := by
  unfold allocSlab
  apply fillAlloc_isSome
  intro j n hj
  exact allocPlane_isSome t i j a d0 (fun k l hk hl => h j k l hj hk hl) n

theorem transposeAlloc_spec (next : Nat) (t : HeapTensor) (a b c d : Int)
    (h : hasShape (eraseAddrs t) a.toNat b.toNat c.toNat d.toNat = true) :
    ∃ r : Handoff,
      transposeAlloc next t (a, b, c, d) = some r ∧
      r.shape = (b, c, a, d) ∧
      r.released =
        postAddrs (postAddrs (postAddrs (fun row => [row.addr]) c.toNat) b.toNat) a.toNat t ∧
      (∀ y ∈ tensorAddrs b.toNat c.toNat a.toNat r.transposedFrame, next ≤ y ∧ y < r.next) ∧
      ∀ i j k l, i < b.toNat → j < c.toNat → k < a.toNat → l < d.toNat →
        at4 (eraseAddrs r.transposedFrame) i j k l = at4 (eraseAddrs t) k i j l := by
  have hsome : ∀ i j k l, i < b.toNat → j < c.toNat → k < a.toNat → l < d.toNat →
      (at4 (eraseAddrs t) k i j l).isSome = true :=
    fun i j k l hi hj hk hl => at4_isSome_of_hasShape _ _ _ _ _ h k i j l hk hi hj hl
  have hfill := fillAlloc_isSome b.toNat
    (fun i nx => allocSlab t i c.toNat a.toNat d.toNat nx)
    (fun i nx hi => allocSlab_isSome t i _ _ _ (fun j k l hj hk hl => hsome i j k l hi hj hk hl) nx)
    next
  obtain ⟨⟨out, nx1⟩, hout⟩ := Option.isSome_iff_exists.mp hfill
  have hrel := releaseAllAddr_spec t a.toNat b.toNat c.toNat (hasShape_erase t _ _ _ _ h)
  have hmono : ∀ x n (v : Block (Block (Block Complex))) n2,
      (fun i n => allocSlab t i c.toNat a.toNat d.toNat n) x n = some (v, n2) → n ≤ n2 :=
    fun x n v n2 hf => Nat.le_of_lt (allocSlab_spec t x _ _ _ n v n2 hf).2.1
  obtain ⟨_, _, hcells⟩ := fillAlloc_spec b.toNat _ hmono next out nx1 hout
  refine ⟨{ transposedFrame := out, shape := (b, c, a, d),
            released := postAddrs (postAddrs (postAddrs (fun row => [row.addr]) c.toNat)
              b.toNat) a.toNat t,
            next := nx1 }, ?_, rfl, rfl, ?_, fun i j k l hi hj hk hl => ?_⟩
  · unfold transposeAlloc
    simp only [Option.bind_eq_bind, Option.pure_def, hout, hrel, Option.some_bind]
  · exact blockAddrs_fresh _ b.toNat _ hmono
      (fun x n v n2 hf => (allocSlab_spec t x _ _ _ n v n2 hf).2.2.1) next out nx1 hout
  · obtain ⟨n, v, n2, _, _, hf, hc⟩ := hcells i hi
    have := (allocSlab_spec t i _ _ _ n v n2 hf).2.2.2 j k l hj hk hl
    simp only [at4, eraseAddrs, hc, Option.map_some', Option.some_bind]
    exact this

theorem transposeAlloc_agrees (next : Nat) (t : HeapTensor) (a b c d : Int)
    (h : hasShape (eraseAddrs t) a.toNat b.toNat c.toNat d.toNat = true) :
    ∃ (r : Handoff) (r0 : Transposed),
      transposeAlloc next t (a, b, c, d) = some r ∧
      transpose (eraseAddrs t) (a, b, c, d) = some r0 ∧
      r.shape = r0.shape ∧
      ∀ i j k l, i < b.toNat → j < c.toNat → k < a.toNat → l < d.toNat →
        at4 (eraseAddrs r.transposedFrame) i j k l = at4 r0.transposedFrame i j k l := by
  obtain ⟨r, hr, hs, _, _, hat⟩ := transposeAlloc_spec next t a b c d h
  obtain ⟨r0, hr0, hs0, _, hat0⟩ := transpose_spec (eraseAddrs t) a b c d h
  exact ⟨r, r0, hr, hr0, by rw [hs, hs0], fun i j k l hi hj hk hl => by
    rw [hat i j k l hi hj hk hl, hat0 i j k l hi hj hk hl]⟩

/-- C12: for an input tensor with the blocks of the shape `(a, b, c, d)`, these
blocks being distinct allocations made before the call, `transpose` returns;
the addresses it passed to `free` are the addresses of the blocks of the input
on all four levels (the top-level array, each `[i]`, each `[i][j]`, each leaf
row `[i][j][k]`), each exactly once and nothing else; and no block of the
returned tensor has the address of a block of the input. -/
theorem ownership_handoff (next : Nat) (t : HeapTensor) (a b c d : Int)
    (hshape : hasShape (eraseAddrs t) a.toNat b.toNat c.toNat d.toNat = true)
    (hdistinct : (tensorAddrs a.toNat b.toNat c.toNat t).Nodup)
    (hlive : ∀ x ∈ tensorAddrs a.toNat b.toNat c.toNat t, x < next) :
    ∃ r : Handoff,
      transposeAlloc next t (a, b, c, d) = some r ∧
      (∀ x ∈ tensorAddrs a.toNat b.toNat c.toNat t, r.released.count x = 1) ∧
      (∀ x ∈ r.released, x ∈ tensorAddrs a.toNat b.toNat c.toNat t) ∧
      r.released.length = (tensorAddrs a.toNat b.toNat c.toNat t).length ∧
      ∀ x ∈ tensorAddrs b.toNat c.toNat a.toNat r.transposedFrame,
        x ∉ tensorAddrs a.toNat b.toNat c.toNat t := by
  obtain ⟨r, hr, _, hrel, hfresh, _⟩ := transposeAlloc_spec next t a b c d hshape
  have hperm : r.released.Perm (tensorAddrs a.toNat b.toNat c.toNat t) := by
    rw [hrel]
    exact released_perm t _ _ _
  refine ⟨r, hr, fun x hx => ?_, fun x hx => hperm.mem_iff.mp hx, hperm.length_eq,
    fun x hx hin => ?_⟩
  · exact List.count_eq_one_of_mem (hperm.nodup_iff.mpr hdistinct) (hperm.mem_iff.mpr hx)
  · have h1 := (hfresh x hx).1
    have h2 := hlive x hin
    omega

/-- C12 on the tensor of shape (2, 1, 2, 1) with its nine blocks at the
addresses 100 .. 108, the allocator at 200. -/
theorem ownership_handoff_witness :
    ∃ r : Handoff,
      transposeAlloc 200 smallHeapTensor (2, 1, 2, 1) = some r ∧
      (∀ x ∈ tensorAddrs (2 : Int).toNat (1 : Int).toNat (2 : Int).toNat smallHeapTensor,
        r.released.count x = 1) ∧
      (∀ x ∈ r.released,
        x ∈ tensorAddrs (2 : Int).toNat (1 : Int).toNat (2 : Int).toNat smallHeapTensor) ∧
      r.released.length =
        (tensorAddrs (2 : Int).toNat (1 : Int).toNat (2 : Int).toNat smallHeapTensor).length ∧
      ∀ x ∈ tensorAddrs (1 : Int).toNat (2 : Int).toNat (2 : Int).toNat r.transposedFrame,
        x ∉ tensorAddrs (2 : Int).toNat (1 : Int).toNat (2 : Int).toNat smallHeapTensor :=
  ownership_handoff 200 smallHeapTensor 2 1 2 1 (by decide) (by decide) (by decide)

end MmWave
